import Mathlib

/-!
The listener supervisor and the fd map of rtp2httpd.

A shallow embedding of `src/rtp2httpd.c` (logger, `child_handler`, the socket
setup and the accept loop of `main`) and of the fd map declared in
`src/worker.h`, followed by the properties proved about them.

Conventions of the embedding.

* The linked list `clients` is a Lean list, head first; a node pointer is the
  position of the node in the list, so pointer equality is equality of
  positions.  `free` is not modelled.
* Values the operating system or an absent collaborator hands back (results of
  `fork`, `waitpid`, `socket`, `bind`, `listen`, `getaddrinfo`, `getnameinfo`,
  `vfprintf`, ...) are inputs of the definitions.
* `stderr` is the list of messages written so far, oldest first.
* `client_count` is a C `int`; its range is not modelled (the counter is
  bounded by the number of accepted connections).
-/

namespace Rtp2httpd

/-! ## Constants and data -/

/-- Line 43: `#define MAX_S 10`. -/
def MAX_S : Nat := 10

/-- The `stdlib.h` value of `EXIT_SUCCESS`. -/
def EXIT_SUCCESS : Int := 0

/-- The `stdlib.h` value of `EXIT_FAILURE`. -/
def EXIT_FAILURE : Int := 1

/-- The signal number of `SIGCHLD` (Linux value). -/
def SIGCHLD : Nat := 17

/-- The address family number of `AF_INET6` (Linux value). -/
def AF_INET6 : Int := 10

/-- A `struct sockaddr_storage`, kept abstract: a host-port identifier. -/
abbrev sockaddr_storage := Nat

/-- Lines 48-53: `struct client_s`; the `next` field is the list structure. -/
structure client_s where
  ss : sockaddr_storage
  pid : Int
deriving DecidableEq, Repr

/-- What the program takes from its surroundings: the configuration globals and
the `enum loglevel` constants declared in the absent `rtp2httpd.h`, and the
library functions whose results only annotate log lines. -/
structure Env where
  /-- The global `conf_verbosity`. -/
  conf_verbosity : Int
  /-- The enum constant `LOG_FATAL`. -/
  LOG_FATAL : Int
  /-- The enum constant `LOG_ERROR`. -/
  LOG_ERROR : Int
  /-- The enum constant `LOG_INFO`. -/
  LOG_INFO : Int
  /-- The enum constant `LOG_DEBUG`. -/
  LOG_DEBUG : Int
  /-- What `vfprintf(stderr, ...)` returns for a formatted message. -/
  vfprintf : String → Int
  /-- The call `getnameinfo(addr, ..., NI_NUMERICHOST | NI_NUMERICSERV)`: return
  value, `hbuf`, `sbuf`. -/
  getnameinfo : sockaddr_storage → Int × String × String
  /-- The library function `gai_strerror`. -/
  gai_strerror : Int → String
  /-- The library function `strerror`. -/
  strerror : Int → String
  /-- Whether `IPV6_V6ONLY` is defined at compile time. -/
  have_IPV6_V6ONLY : Bool

/-- The supervisor's mutable state: the globals `clients` and `client_count`,
the diagnostic stream, the signal mask of the process and the descriptors it has
closed (in order). -/
structure State where
  clients : List client_s
  client_count : Int
  stderr : List String
  sigmask : List Nat
  closed : List Int

/-! ## logger (lines 72-83) -/

/-- Lines 72-83: `logger`.  Returns the diagnostic stream after the call and the
return value `r`. -/
def logger (env : Env) (stderr : List String) (level : Int) (msg : String) :
    List String × Int :=
  let r : Int := 0
  if env.conf_verbosity ≥ level then
    (stderr ++ [msg], env.vfprintf msg)
  else
    (stderr, r)

/-! ## child_handler (lines 85-147) -/

/-- Lines 96-100: the search loop.  Returns the pointer `client` at loop exit:
`some (position, node)` at the `break`, `none` when the walk reached `NULL`. -/
def find_client : List client_s → Int → Option (Nat × client_s)
  | [], _ => none
  | c :: rest, child =>
    if child = c.pid then some (0, c)
    else (find_client rest child).map (fun p => (p.1 + 1, p.2))

/-- Lines 127-135: the predecessor loop, entered with `next_client` at the head
of the list given and `client` at offset `k` from it.  When
`next_client->next == client` the node is unlinked and the loop breaks. -/
def unlink_loop : List client_s → Nat → List client_s
  | [], _ => []
  | n :: rest, k =>
    if k = 1 then n :: rest.tail
    else n :: unlink_loop rest (k - 1)

/-- Lines 119-136: remove the node at position `idx` from the list. -/
def remove_client (clients : List client_s) (idx : Nat) : List client_s :=
  if idx = 0 then clients.tail
  else unlink_loop clients idx

/-- The macro `WEXITSTATUS` of `sys/wait.h`. -/
def WEXITSTATUS (status : Int) : Int := (status / 256) % 256

/-- The macro `WIFSIGNALED` of `sys/wait.h`, as 0 or 1. -/
def WIFSIGNALED (status : Int) : Int :=
  if status % 128 = 0 ∨ status % 128 = 127 then 0 else 1

/-- Lines 96-145: the body of the drain loop for one `waitpid` result.  Line 145
installs the handler again, which changes nothing of the state kept here. -/
def child_handler_body (env : Env) (st : State) (child status : Int) : State :=
  let st1 : State :=
    match find_client st.clients child with
    | some (idx, client) =>
      let r := env.getnameinfo client.ss
      let err :=
        if r.1 ≠ 0 then
          (logger env st.stderr env.LOG_ERROR
            ("getnameinfo failed: " ++ env.gai_strerror r.1 ++ "\n")).1
        else
          (logger env st.stderr env.LOG_DEBUG
            ("Client " ++ r.2.1 ++ " port " ++ r.2.2 ++ " disconnected (" ++
              toString (WEXITSTATUS status) ++ ", " ++
              toString (WIFSIGNALED status) ++ ")\n")).1
      { st with clients := remove_client st.clients idx, stderr := err }
    | none =>
      if child ≠ 1 then
        { st with stderr := (logger env st.stderr env.LOG_ERROR
            ("Unknown child finished - pid " ++ toString child ++ "\n")).1 }
      else st
  { st1 with client_count := st1.client_count - 1 }

/-- Lines 85-147: `child_handler`.  The list holds what the successive calls
`waitpid(-1, &status, WNOHANG)` return; past its end `waitpid` returns 0. -/
def child_handler (env : Env) : State → List (Int × Int) → State
  | st, [] => st
  | st, (child, status) :: more =>
    if child > 0 then child_handler env (child_handler_body env st child status) more
    else st

/-! ## The accept section of main (lines 298-338) -/

/-- The library call `sigaddset`. -/
def sigaddset (set : List Nat) (signum : Nat) : List Nat := signum :: set

/-- The call `sigprocmask(SIG_BLOCK, set, NULL)`. -/
def sigprocmask_block (set : List Nat) (st : State) : State :=
  { st with sigmask := set ++ st.sigmask }

/-- The call `sigprocmask(SIG_UNBLOCK, set, NULL)`. -/
def sigprocmask_unblock (set : List Nat) (st : State) : State :=
  { st with sigmask := st.sigmask.filter (fun x => decide (x ∉ set)) }

/-- The locals of `main` that the accept loop reads: the array `s`, `maxs`,
`nfds`, the descriptor set `rfd0` and `childset`. -/
structure Locals where
  s : List Int
  maxs : Nat
  nfds : Int
  rfd0 : List Int
  childset : List Nat

/-- Lines 164-166: `childset` is declared without initialisation and gets
`SIGCHLD` added; `garbage` is what the variable held before. -/
def childset_init (garbage : List Nat) : List Nat := sigaddset garbage SIGCHLD

/-- Line 304: `client_count++`. -/
def count_client (st : State) : State :=
  { st with client_count := st.client_count + 1 }

/-- Line 307: `close(client_socket)`. -/
def close_fd (fd : Int) (st : State) : State :=
  { st with closed := st.closed ++ [fd] }

/-- Lines 308-312: allocate the record and link it in front of `clients`. -/
def insert_client (client : sockaddr_storage) (child : Int) (st : State) : State :=
  { st with clients := { ss := client, pid := child } :: st.clients }

/-- Lines 314-327: resolve the peer address and log the connection. -/
def log_connection (env : Env) (client : sockaddr_storage) (st : State) : State :=
  let r := env.getnameinfo client
  { st with stderr :=
      if r.1 ≠ 0 then
        (logger env st.stderr env.LOG_ERROR
          ("getnameinfo failed: " ++ env.gai_strerror r.1 ++ "\n")).1
      else
        (logger env st.stderr env.LOG_INFO
          ("Connection from " ++ r.2.1 ++ " port " ++ r.2.2 ++ "\n")).1 }

/-- Lines 306-329: the parent branch, entered after `fork` returned `child`. -/
def main_parent_path (env : Env) (m : Locals) (st : State)
    (client : sockaddr_storage) (client_socket child : Int) : State :=
  sigprocmask_unblock m.childset
    (log_connection env client
      (insert_client client child
        (close_fd client_socket st)))

/-- Lines 303-304: what runs between `accept` and `fork`. -/
def pre_fork (m : Locals) (st : State) : State :=
  count_client (sigprocmask_block m.childset st)

/-- The calls a forked child makes, in order. -/
inductive Action where
  | sigprocmask_unblock (set : List Nat)
  | close (fd : Int)
  | client_service (fd : Int)
  | exit (status : Int)
deriving DecidableEq, Repr

/-- Lines 333-334: `for (j = 0; j < maxs; j++) close(s[j]);` with `n` the
number of iterations left (`maxs - j`). -/
def close_loop (s : List Int) : Nat → Nat → List Action
  | _, 0 => []
  | j, n + 1 => Action.close (s.getD j 0) :: close_loop s (j + 1) n

/-- Lines 331-337: the child branch.  `returns` tells whether the call
`client_service(client_socket)` comes back. -/
def main_child_path (m : Locals) (client_socket : Int) (returns : Bool) : List Action :=
  [Action.sigprocmask_unblock m.childset] ++ close_loop m.s 0 m.maxs ++
    [Action.client_service client_socket] ++
    (if returns then [Action.exit EXIT_SUCCESS] else [])

/-- How one pass through lines 298-338 ends: in the parent, which goes on with
the accept loop in the state given, or in the child, which performs the calls
listed and is then gone. -/
inductive Outcome where
  | parent (st : State)
  | child (calls : List Action)

/-- Lines 298-338: the handling of one accepted connection; `client` and
`client_socket` are what `accept` produced, `child` is what `fork` returns. -/
def main_accept (env : Env) (m : Locals) (st : State) (client : sockaddr_storage)
    (client_socket child : Int) (returns : Bool) : Outcome :=
  let st1 := pre_fork m st
  if child ≠ 0 then
    Outcome.parent (main_parent_path env m st1 client client_socket child)
  else
    Outcome.child (main_child_path m client_socket returns)

/-- What the supervisor does with one accepted connection when `fork` returned
`child` in the parent: lines 303-329. -/
def accept_step (env : Env) (m : Locals) (st : State) (client : sockaddr_storage)
    (client_socket child : Int) : State :=
  main_parent_path env m (pre_fork m st) client client_socket child

/-- The events of the supervisor's life after setup. -/
inductive Event where
  /-- A connection was accepted and `fork` returned `child` to the parent. -/
  | accept (client : sockaddr_storage) (client_socket child : Int)
  /-- The handler ran for one terminated pid: `waitpid` returned `child`. -/
  | reap (child status : Int)
deriving DecidableEq, Repr

/-- One event applied to the supervisor state. -/
def step (env : Env) (m : Locals) (st : State) : Event → State
  | Event.accept client client_socket child => accept_step env m st client client_socket child
  | Event.reap child status => child_handler env st [(child, status)]

/-- A sequence of events applied in order. -/
def run (env : Env) (m : Locals) (st : State) (evs : List Event) : State :=
  evs.foldl (step env m) st

/-- The state when the accept loop is entered: line 55 (`clients` is a zeroed
static) and line 60. -/
def init_state (sigmask : List Nat) (stderr : List String) (closed : List Int) : State :=
  { clients := [], client_count := 0, stderr := stderr, sigmask := sigmask, closed := closed }

/-- The pids of the worker processes that exist as children of the supervisor
(forked and not yet reaped) after a sequence of events: a successful `fork`
(positive return value) creates the process of that pid, and `waitpid`
returning a pid takes that process away. -/
def live_workers : List Int → List Event → List Int
  | live, [] => live
  | live, Event.accept _ _ child :: evs =>
    live_workers (if 0 < child then child :: live else live) evs
  | live, Event.reap child _ :: evs => live_workers (live.erase child) evs

/-- A concrete environment used in the examples: levels 0 to 3, verbosity
`LOG_INFO`, a resolver that fails on address 0. -/
def env0 : Env :=
  { conf_verbosity := 2, LOG_FATAL := 0, LOG_ERROR := 1, LOG_INFO := 2, LOG_DEBUG := 3,
    vfprintf := fun msg => msg.length,
    getnameinfo := fun a => if a = 0 then (-2, "", "") else (0, toString a, "80"),
    gai_strerror := fun r => toString r,
    strerror := fun e => toString e,
    have_IPV6_V6ONLY := true }

/-- Concrete locals used in the examples: two listening sockets. -/
def locals0 : Locals :=
  { s := [3, 4, 0, 0, 0, 0, 0, 0, 0, 0], maxs := 2, nfds := 4, rfd0 := [3, 4],
    childset := childset_init [] }

/-! ## Socket setup in main (lines 170-269) -/

/-- One `struct addrinfo` of a `getaddrinfo` result, together with what the
system calls made for it return (each with the `errno` it leaves). -/
structure addrinfo where
  ai_family : Int
  ai_addr : sockaddr_storage
  /-- Return value of `socket(...)`: the new descriptor, or negative. -/
  socket_r : Int
  /-- Return value of `setsockopt(..., SO_REUSEADDR, ...)`. -/
  reuseaddr_r : Int
  reuseaddr_errno : Int
  /-- Return value of `setsockopt(..., IPV6_V6ONLY, ...)`. -/
  v6only_r : Int
  v6only_errno : Int
  /-- Return value of `bind(...)`. -/
  bind_r : Int
  bind_errno : Int
  /-- Return value of `listen(...)`. -/
  listen_r : Int
  listen_errno : Int
deriving DecidableEq, Repr

/-- One node of the `bind_addresses` list (`struct bindaddr_s` of the absent
`rtp2httpd.h`), together with what `getaddrinfo` returns for it: the return
value `gai_r` and the list `res`. -/
structure bindaddr_s where
  node : String
  service : String
  gai_r : Int
  res : List addrinfo
deriving DecidableEq, Repr

/-- The locals of `main` that the setup loops write, the diagnostic stream and
the descriptors closed so far. -/
structure Setup where
  s : List Int
  maxs : Nat
  nfds : Int
  stderr : List String
  closed : List Int

/-- Lines 197-218: the two `setsockopt` calls; a failure is logged and nothing
else. -/
def set_options (env : Env) (L : Setup) (ai : addrinfo) : Setup :=
  let L2 : Setup :=
    if ai.reuseaddr_r ≠ 0 then
      { L with stderr := (logger env L.stderr env.LOG_ERROR
          ("SO_REUSEADDR failed: " ++ env.strerror ai.reuseaddr_errno ++ "\n")).1 }
    else L
  if env.have_IPV6_V6ONLY = true ∧ ai.ai_family = AF_INET6 ∧ ai.v6only_r ≠ 0 then
    { L2 with stderr := (logger env L2.stderr env.LOG_ERROR
        ("IPV6_V6ONLY failed: " ++ env.strerror ai.v6only_errno ++ "\n")).1 }
  else L2

/-- Lines 193-253: the body of the inner loop for one candidate.  Each
`continue` returns the state reached so far. -/
def listen_candidate (env : Env) (L : Setup) (ai : addrinfo) : Setup :=
  let L1 : Setup := { L with s := L.s.set L.maxs ai.socket_r }
  if ai.socket_r < 0 then L1
  else
    let L3 : Setup := set_options env L1 ai
    if ai.bind_r ≠ 0 then
      { L3 with
        stderr := (logger env L3.stderr env.LOG_ERROR
          ("Cannot bind: " ++ env.strerror ai.bind_errno ++ "\n")).1,
        closed := L3.closed ++ [ai.socket_r] }
    else if ai.listen_r ≠ 0 then
      { L3 with
        stderr := (logger env L3.stderr env.LOG_ERROR
          ("Cannot listen: " ++ env.strerror ai.listen_errno ++ "\n")).1,
        closed := L3.closed ++ [ai.socket_r] }
    else
      let r := env.getnameinfo ai.ai_addr
      let L4 : Setup :=
        { L3 with stderr :=
            if r.1 ≠ 0 then
              (logger env L3.stderr env.LOG_ERROR
                ("getnameinfo failed: " ++ env.gai_strerror r.1 ++ "\n")).1
            else
              (logger env L3.stderr env.LOG_INFO
                ("Listening on " ++ r.2.1 ++ " port " ++ r.2.2 ++ "\n")).1 }
      let L5 : Setup := if ai.socket_r > L4.nfds then { L4 with nfds := ai.socket_r } else L4
      { L5 with maxs := L5.maxs + 1 }

/-- Lines 191-254: `for (ai = res; ai && maxs < MAX_S; ai = ai->ai_next)`. -/
def candidate_loop (env : Env) : Setup → List addrinfo → Setup
  | L, [] => L
  | L, ai :: rest =>
    if L.maxs < MAX_S then candidate_loop env (listen_candidate env L ai) rest
    else L

/-- Lines 181-256: the loop over `bind_addresses`.  `Except.error` carries the
exit status and the diagnostic stream of a process that called `exit`. -/
def bind_loop (env : Env) : Setup → List bindaddr_s → Except (Int × List String) Setup
  | L, [] => Except.ok L
  | L, bind_addr :: rest =>
    if bind_addr.gai_r ≠ 0 then
      Except.error (EXIT_FAILURE,
        (logger env L.stderr env.LOG_FATAL
          ("GAI: " ++ env.gai_strerror bind_addr.gai_r ++ "\n")).1)
    else bind_loop env (candidate_loop env L bind_addr.res) rest

/-- The `sys/select.h` value of `FD_SETSIZE`: the number of bits of an
`fd_set`. -/
def FD_SETSIZE : Nat := 1024

/-- The macro `FD_SET` on a descriptor set kept as the list of its members.  An
`fd_set` has a bit for each of the descriptors 0 to `FD_SETSIZE - 1` and no
other; the source does not compare `s[i]` with `FD_SETSIZE`, and for a
descriptor outside that range the set gains no member (what the macro writes
outside the set is not kept here). -/
def FD_SET (fd : Int) (set : List Int) : List Int :=
  if 0 ≤ fd ∧ fd < (FD_SETSIZE : Int) then set.insert fd else set

/-- Lines 266-269: `for (i = 0; i < maxs; i++) FD_SET(s[i], &rfd0);` with `n`
the number of iterations left. -/
def fd_set_loop (s : List Int) : Nat → Nat → List Int → List Int
  | _, 0, rfd0 => rfd0
  | i, n + 1, rfd0 => fd_set_loop s (i + 1) n (FD_SET (s.getD i 0) rfd0)

/-- How the setup part of `main` ends. -/
inductive Startup where
  /-- The process called `exit(status)`. -/
  | exit (status : Int) (stderr : List String)
  /-- Control reached line 271 with these locals. -/
  | ready (L : Setup) (rfd0 : List Int)

/-- The list the bind loop walks: lines 176-179. -/
def effective_bind_addresses (new_empty_bindaddr bind_addresses : List bindaddr_s) :
    List bindaddr_s :=
  if bind_addresses = [] then new_empty_bindaddr else bind_addresses

/-- The locals at line 173-174; `s0` is what the uninitialised array holds. -/
def setup_init (s0 : List Int) (stderr : List String) : Setup :=
  { s := s0, maxs := 0, nfds := -1, stderr := stderr, closed := [] }

/-- Lines 170-269 of `main`.  `s0` is the initial content of the array `s`,
`new_empty_bindaddr` what the absent function of that name returns,
`bind_addresses` the global as `parse_cmd_line` left it. -/
def main_setup (env : Env) (s0 : List Int) (stderr : List String)
    (new_empty_bindaddr bind_addresses : List bindaddr_s) : Startup :=
  match bind_loop env (setup_init s0 stderr)
      (effective_bind_addresses new_empty_bindaddr bind_addresses) with
  | Except.error e => Startup.exit e.1 e.2
  | Except.ok L =>
    if L.maxs = 0 then
      Startup.exit EXIT_FAILURE (logger env L.stderr env.LOG_FATAL "No socket to listen!\n").1
    else
      Startup.ready L (fd_set_loop L.s 0 L.maxs [])

/-- A candidate whose `socket`, `bind` and `listen` calls all succeed. -/
def addrinfo.succeeds (ai : addrinfo) : Bool :=
  decide (0 ≤ ai.socket_r) && decide (ai.bind_r = 0) && decide (ai.listen_r = 0)

/-- All candidates of a list of bind addresses, in the order they are met. -/
def candidates (bind_addresses : List bindaddr_s) : List addrinfo :=
  (bind_addresses.map (fun b => b.res)).flatten

/-- A candidate for which every call succeeds and yields descriptor `fd`. -/
def good_candidate (fd : Int) : addrinfo :=
  { ai_family := 2, ai_addr := 1, socket_r := fd, reuseaddr_r := 0, reuseaddr_errno := 0,
    v6only_r := 0, v6only_errno := 0, bind_r := 0, bind_errno := 0,
    listen_r := 0, listen_errno := 0 }

/-- A candidate with descriptor `fd` whose `bind` fails. -/
def unbindable_candidate (fd : Int) : addrinfo :=
  { good_candidate fd with bind_r := -1, bind_errno := 98 }

/-- A bind address that resolves to the candidates given. -/
def resolved (res : List addrinfo) : bindaddr_s :=
  { node := "", service := "8080", gai_r := 0, res := res }

/-- Eleven candidates for which every call succeeds, with descriptors 3 to 13. -/
def eleven_candidates : List addrinfo :=
  (List.range 11).map (fun i => good_candidate ((i : Int) + 3))

/-- What the array `s` holds in the examples before setup. -/
def s_zero : List Int := List.replicate 10 0

/-! ## The accept section, statement by statement, with signal delivery -/

/-- Where the supervisor stands in lines 284-329; the arguments are the live
locals `client`, `client_socket` and `child`. -/
inductive Pc where
  /-- Lines 284-296: in `select`, or scanning the listeners. -/
  | waiting
  /-- Line 298 done: `accept` has returned. -/
  | accepted (client : sockaddr_storage) (client_socket : Int)
  /-- Line 303 done: `sigprocmask(SIG_BLOCK, ...)`. -/
  | masked (client : sockaddr_storage) (client_socket : Int)
  /-- Line 304 done: `client_count++`; `fork` is next. -/
  | counted (client : sockaddr_storage) (client_socket : Int)
  /-- Line 305 done in the parent: `fork` returned `child`, not 0. -/
  | forked (client : sockaddr_storage) (client_socket child : Int)
  /-- Line 307 done: `close(client_socket)`. -/
  | closed (client : sockaddr_storage) (child : Int)
  /-- Lines 308-312 done: the record is linked into `clients`. -/
  | inserted (client : sockaddr_storage)
  /-- Lines 314-327 done; line 328 is next. -/
  | logged
  /-- Line 305 returned 0: this process is the child, which leaves the loop. -/
  | gone
deriving DecidableEq, Repr

/-- The supervisor process between statements: its state, its position, and the
pids of the children the kernel holds for it (forked and not yet reaped). -/
structure Sup where
  st : State
  pc : Pc
  workers : List Int

/-- What can happen next: the program executes its next statement (`client`,
`client_socket` and `child` are what `accept` and `fork` return if that
statement calls them), or the kernel delivers `SIGCHLD` and the handler runs,
its `waitpid` calls returning `results`. -/
inductive Tick where
  | stmt (client : sockaddr_storage) (client_socket child : Int)
  | sigchld (results : List (Int × Int))
deriving DecidableEq, Repr

/-- The kernel's side of the handler's drain loop: each pid `waitpid` returns
is taken out of the children of the process. -/
def reap_workers : List Int → List (Int × Int) → List Int
  | workers, [] => workers
  | workers, (child, _) :: more =>
    if child > 0 then reap_workers (workers.erase child) more else workers

/-- One statement of lines 298-328. -/
def stmt_step (env : Env) (m : Locals) (sup : Sup)
    (client : sockaddr_storage) (client_socket child : Int) : Sup :=
  match sup.pc with
  | Pc.waiting => { sup with pc := Pc.accepted client client_socket }
  | Pc.accepted c fd =>
    { sup with st := sigprocmask_block m.childset sup.st, pc := Pc.masked c fd }
  | Pc.masked c fd => { sup with st := count_client sup.st, pc := Pc.counted c fd }
  | Pc.counted c fd =>
    if child ≠ 0 then
      { sup with pc := Pc.forked c fd child,
                 workers := if 0 < child then child :: sup.workers else sup.workers }
    else { sup with pc := Pc.gone, workers := [] }
  | Pc.forked c fd ch => { sup with st := close_fd fd sup.st, pc := Pc.closed c ch }
  | Pc.closed c ch => { sup with st := insert_client c ch sup.st, pc := Pc.inserted c }
  | Pc.inserted c => { sup with st := log_connection env c sup.st, pc := Pc.logged }
  | Pc.logged => { sup with st := sigprocmask_unblock m.childset sup.st, pc := Pc.waiting }
  | Pc.gone => sup

/-- One tick.  `SIGCHLD` reaches the handler only while it is not in the signal
mask; a blocked signal stays pending and changes nothing. -/
def tick (env : Env) (m : Locals) (sup : Sup) : Tick → Sup
  | Tick.stmt client client_socket child => stmt_step env m sup client client_socket child
  | Tick.sigchld results =>
    if SIGCHLD ∈ sup.st.sigmask ∨ sup.pc = Pc.gone then sup
    else { sup with st := child_handler env sup.st results,
                    workers := reap_workers sup.workers results }

/-- A sequence of ticks. -/
def ticks (env : Env) (m : Locals) (sup : Sup) (ts : List Tick) : Sup :=
  ts.foldl (tick env m) sup

/-- The supervisor when the accept loop is entered (line 282). -/
def sup_init (sigmask : List Nat) (stderr : List String) (closed : List Int) : Sup :=
  { st := init_state sigmask stderr closed, pc := Pc.waiting, workers := [] }

/-- The positions between line 303 and line 328, where the source has
`SIGCHLD` blocked. -/
def Pc.in_section : Pc → Bool
  | Pc.masked _ _ => true
  | Pc.counted _ _ => true
  | Pc.forked _ _ _ => true
  | Pc.closed _ _ => true
  | Pc.inserted _ => true
  | Pc.logged => true
  | _ => false

/-- The supervisor after a sequence of ticks from the entry of the accept loop,
with `childset` as lines 164-166 leave it. -/
def supervisor_after (env : Env) (m : Locals) (garbage : List Nat) (sigmask : List Nat)
    (stderr : List String) (closed : List Int) (ts : List Tick) : Sup :=
  ticks env { m with childset := childset_init garbage } (sup_init sigmask stderr closed) ts

/-- The positive pids of the records of the registry, in list order. -/
def registry_pids (st : State) : List Int :=
  (st.clients.map client_s.pid).filter (fun p => decide (0 < p))

/-- What holds of the supervisor between any two statements: outside the
section the positive pids of the registry are the children of the process; inside
it `SIGCHLD` is in the mask, and between `fork` and the insertion the new child
is the one pid the registry still lacks. -/
def sup_inv (sup : Sup) : Prop :=
  match sup.pc with
  | Pc.waiting => registry_pids sup.st = sup.workers
  | Pc.accepted _ _ => registry_pids sup.st = sup.workers
  | Pc.masked _ _ => SIGCHLD ∈ sup.st.sigmask ∧ registry_pids sup.st = sup.workers
  | Pc.counted _ _ => SIGCHLD ∈ sup.st.sigmask ∧ registry_pids sup.st = sup.workers
  | Pc.forked _ _ child =>
    SIGCHLD ∈ sup.st.sigmask ∧
      (if 0 < child then child :: registry_pids sup.st else registry_pids sup.st) = sup.workers
  | Pc.closed _ child =>
    SIGCHLD ∈ sup.st.sigmask ∧
      (if 0 < child then child :: registry_pids sup.st else registry_pids sup.st) = sup.workers
  | Pc.inserted _ => SIGCHLD ∈ sup.st.sigmask ∧ registry_pids sup.st = sup.workers
  | Pc.logged => SIGCHLD ∈ sup.st.sigmask ∧ registry_pids sup.st = sup.workers
  | Pc.gone => sup.workers = []

/-- The ticks of one pass of the parent through lines 298-328, one per
statement, with `SIGCHLD` arriving after each statement from line 303 on;
`results` is what the handler's `waitpid` calls would return at each arrival. -/
def section_ticks (client : sockaddr_storage) (client_socket child : Int)
    (results : List (Int × Int)) : List Tick :=
  [Tick.stmt client client_socket child,
   Tick.stmt client client_socket child, Tick.sigchld results,
   Tick.stmt client client_socket child, Tick.sigchld results,
   Tick.stmt client client_socket child, Tick.sigchld results,
   Tick.stmt client client_socket child, Tick.sigchld results,
   Tick.stmt client client_socket child, Tick.sigchld results,
   Tick.stmt client client_socket child, Tick.sigchld results,
   Tick.stmt client client_socket child]

/-- A sample run: one connection from peer 7 is accepted, worker 100 is forked
and ends at once, so that `SIGCHLD` for it arrives after every statement of the
section. -/
def ticks0 : List Tick := section_ticks 7 5 100 [(100, 0)]

/-! ## The fd map (src/worker.h) -/

/-- Line 9 of `worker.h`: `#define FD_MAP_SIZE 65536`. -/
def FD_MAP_SIZE : Nat := 65536

/-- A `connection_t *`: `none` is `NULL`, `some a` the connection at address
`a` (the type itself is declared in the absent `connection.h`). -/
abbrev connection_ptr := Option Nat

/-- Lines 11-15 of `worker.h`: `fdmap_entry_t`. -/
structure fdmap_entry_t where
  fd : Int
  conn : connection_ptr
deriving DecidableEq, Repr

/-- The table behind the fd map: `FD_MAP_SIZE` entries. -/
abbrev fdmap_t := Fin FD_MAP_SIZE → fdmap_entry_t

/-- Modelled from the spec: the index of a descriptor in the table; the bodies
of the fd map functions are not among the sources.  The table is indexed by the
descriptor value, masked to the power-of-two size. -/
def fdmap_index (fd : Int) : Fin FD_MAP_SIZE :=
  ⟨(fd % (FD_MAP_SIZE : Int)).toNat, by
    have h : (0 : Int) < (FD_MAP_SIZE : Int) := by decide
    have h1 := Int.emod_nonneg fd (ne_of_gt h)
    have h2 := Int.emod_lt_of_pos fd h
    omega⟩

/-- Modelled from the spec: the body of `fdmap_init` is not among the sources.
After it no index is set. -/
def fdmap_init : fdmap_t := fun _ => { fd := -1, conn := none }

/-- Modelled from the spec: the body of `fdmap_set` is not among the sources.
It stores the connection at the index of the descriptor. -/
def fdmap_set (m : fdmap_t) (fd : Int) (c : connection_ptr) : fdmap_t :=
  Function.update m (fdmap_index fd) { fd := fd, conn := c }

/-- Modelled from the spec: the body of `fdmap_get` is not among the sources.
It returns what the index of the descriptor holds, `none` for an index not
set. -/
def fdmap_get (m : fdmap_t) (fd : Int) : connection_ptr :=
  (m (fdmap_index fd)).conn

/-- Modelled from the spec: the body of `fdmap_del` is not among the sources.
It puts the index of the descriptor back to the state of an index not set. -/
def fdmap_del (m : fdmap_t) (fd : Int) : fdmap_t :=
  Function.update m (fdmap_index fd) { fd := -1, conn := none }

/-- An operation on the fd map. -/
inductive FdOp where
  | set (fd : Int) (c : connection_ptr)
  | del (fd : Int)
deriving DecidableEq, Repr

/-- The descriptor an operation is about. -/
def FdOp.fd : FdOp → Int
  | FdOp.set fd _ => fd
  | FdOp.del fd => fd

/-- Whether an operation is a `fdmap_set` on descriptor `d`. -/
def FdOp.sets (d : Int) : FdOp → Bool
  | FdOp.set fd _ => decide (fd = d)
  | FdOp.del _ => false

/-- One operation applied to a map. -/
def fdmap_step (m : fdmap_t) : FdOp → fdmap_t
  | FdOp.set fd c => fdmap_set m fd c
  | FdOp.del fd => fdmap_del m fd

/-- A sequence of operations applied to a map, in order. -/
def fdmap_apply (m : fdmap_t) (ops : List FdOp) : fdmap_t :=
  ops.foldl fdmap_step m

/-! ## Conditions on event sequences -/

/-- Every `fork` of the sequence succeeded: what it returned to the parent is a
pid, a positive number. -/
def forks_succeed : List Event → Bool
  | [] => true
  | Event.accept _ _ child :: evs => decide (0 < child) && forks_succeed evs
  | Event.reap _ _ :: evs => forks_succeed evs

/-- Every reap event of the sequence, run from the state given, is for a pid
(positive, as the drain loop requires) of which the registry holds a record at
that moment. -/
def reaps_match (env : Env) (m : Locals) : State → List Event → Bool
  | _, [] => true
  | st, Event.accept client client_socket child :: evs =>
    reaps_match env m (step env m st (Event.accept client client_socket child)) evs
  | st, Event.reap child status :: evs =>
    decide (0 < child) && st.clients.any (fun r => decide (r.pid = child)) &&
      reaps_match env m (step env m st (Event.reap child status)) evs

/-- A sample event sequence: three connections, the second worker ends, then the
third. -/
def events0 : List Event :=
  [Event.accept 7 5 100, Event.accept 8 5 101, Event.accept 0 5 102,
   Event.reap 101 0, Event.reap 102 9]

/-- A sample registry of three records. -/
def state0 : State :=
  { clients := [{ ss := 0, pid := 102 }, { ss := 8, pid := 101 }, { ss := 7, pid := 100 }],
    client_count := 3, stderr := [], sigmask := [], closed := [] }

/-! ## Properties of `child_handler` -/

theorem find_client_none_iff (l : List client_s) (child : Int) :
    find_client l child = none ↔ ∀ x ∈ l, x.pid ≠ child := by
  induction l with
  | nil => simp [find_client]
  | cons c rest ih =>
    by_cases h : child = c.pid
    · simp [find_client, h]
    · have h2 : ¬ c.pid = child := fun e => h e.symm
      simp [find_client, h, h2, ih]

theorem find_client_split (pre post : List client_s) (r : client_s) (child : Int)
    (hr : r.pid = child) (hpre : ∀ x ∈ pre, x.pid ≠ child) :
    find_client (pre ++ r :: post) child = some (pre.length, r) := by
  induction pre with
  | nil => simp [find_client, hr]
  | cons c rest ih =>
    have hc : ¬ child = c.pid := fun e => hpre c (List.mem_cons_self _ _) e.symm
    have ih2 := ih (fun x hx => hpre x (List.mem_cons_of_mem _ hx))
    simp [find_client, hc, ih2]

theorem find_client_some (l : List client_s) (child : Int) (i : Nat) (c : client_s)
    (h : find_client l child = some (i, c)) :
    ∃ pre post, l = pre ++ c :: post ∧ pre.length = i ∧ c.pid = child ∧
      ∀ x ∈ pre, x.pid ≠ child := by
  induction l generalizing i with
  | nil => simp [find_client] at h
  | cons d rest ih =>
    by_cases hd : child = d.pid
    · simp [find_client, hd] at h
      obtain ⟨hi, hc⟩ := h
      subst hc
      exact ⟨[], rest, by simp, by simp [hi], hd.symm, by simp⟩
    · simp only [find_client, hd, if_false, Option.map_eq_some'] at h
      obtain ⟨⟨j, c2⟩, hj, hjc⟩ := h
      simp only [Prod.mk.injEq] at hjc
      obtain ⟨hi, hc⟩ := hjc
      subst hc
      obtain ⟨pre, post, hl, hlen, hpid, hpre⟩ := ih j hj
      refine ⟨d :: pre, post, by simp [hl], by simp [hlen, hi], hpid, ?_⟩
      intro x hx
      rcases List.mem_cons.mp hx with hx | hx
      · subst hx; exact fun e => hd e.symm
      · exact hpre x hx

theorem unlink_loop_split (n : client_s) (pre post : List client_s) (r : client_s) :
    unlink_loop (n :: pre ++ r :: post) (pre.length + 1) = n :: pre ++ post := by
  induction pre generalizing n with
  | nil => simp [unlink_loop]
  | cons c rest ih =>
    have h := ih c
    simp only [List.cons_append] at h
    simp only [List.cons_append, List.length_cons]
    rw [unlink_loop]
    have hne : ¬ (rest.length + 1 + 1 = 1) := by omega
    simp only [hne, if_false, Nat.add_sub_cancel]
    rw [h]

theorem remove_client_split (pre post : List client_s) (r : client_s) :
    remove_client (pre ++ r :: post) pre.length = pre ++ post := by
  cases pre with
  | nil => simp [remove_client]
  | cons n rest =>
    have h := unlink_loop_split n rest post r
    simp only [List.cons_append] at h
    simp [remove_client, h]

theorem body_clients_split (env : Env) (st : State) (child status : Int)
    (pre post : List client_s) (r : client_s)
    (hsplit : st.clients = pre ++ r :: post) (hr : r.pid = child)
    (hpre : ∀ x ∈ pre, x.pid ≠ child) :
    (child_handler_body env st child status).clients = pre ++ post := by
  have hf := find_client_split pre post r child hr hpre
  unfold child_handler_body
  rw [hsplit, hf]
  simp only []
  rw [remove_client_split]

theorem body_clients_unmatched (env : Env) (st : State) (child status : Int)
    (hno : ∀ x ∈ st.clients, x.pid ≠ child) :
    (child_handler_body env st child status).clients = st.clients := by
  have hf := (find_client_none_iff st.clients child).mpr hno
  unfold child_handler_body
  rw [hf]
  by_cases h1 : child = 1 <;> simp [h1]

theorem body_count (env : Env) (st : State) (child status : Int) :
    (child_handler_body env st child status).client_count = st.client_count - 1 := by
  unfold child_handler_body
  cases hf : find_client st.clients child with
  | none => by_cases h1 : child = 1 <;> simp [h1]
  | some p => simp

theorem handler_single (env : Env) (st : State) (child status : Int) (hpos : 0 < child) :
    child_handler env st [(child, status)] = child_handler_body env st child status := by
  simp [child_handler, hpos]

theorem body_pids (env : Env) (st : State) (child status : Int) :
    (child_handler_body env st child status).clients.map client_s.pid =
      (st.clients.map client_s.pid).erase child := by
  cases hf : find_client st.clients child with
  | none =>
    have hno := (find_client_none_iff st.clients child).mp hf
    rw [body_clients_unmatched env st child status hno]
    have hnot : child ∉ st.clients.map client_s.pid := by
      intro hmem
      obtain ⟨x, hx, hxp⟩ := List.mem_map.mp hmem
      exact hno x hx hxp
    rw [List.erase_of_not_mem hnot]
  | some p =>
    obtain ⟨i, c⟩ := p
    obtain ⟨pre, post, hl, _, hpid, hpre⟩ := find_client_some st.clients child i c hf
    rw [body_clients_split env st child status pre post c hl hpid hpre, hl]
    have hnot : child ∉ pre.map client_s.pid := by
      intro hmem
      obtain ⟨x, hx, hxp⟩ := List.mem_map.mp hmem
      exact hpre x hx hxp
    simp only [List.map_append, List.map_cons]
    rw [List.erase_append_right _ hnot, hpid, List.erase_cons_head]

theorem filter_pos_erase (l : List Int) (p : Int) (hp : 0 < p) :
    (l.erase p).filter (fun q => decide (0 < q)) =
      (l.filter (fun q => decide (0 < q))).erase p := by
  induction l with
  | nil => simp
  | cons a rest ih =>
    by_cases ha : a = p
    · subst ha
      simp [hp]
    · have hne : ¬ (a == p) = true := by simpa using ha
      rw [List.erase_cons_tail hne]
      by_cases hpos : 0 < a
      · simp only [List.filter_cons, hpos, decide_True, if_true]
        rw [List.erase_cons_tail hne, ih]
      · simp only [List.filter_cons, hpos, decide_False]
        simpa using ih

theorem handler_registry_pids (env : Env) (results : List (Int × Int)) :
    ∀ st : State, registry_pids (child_handler env st results) =
      reap_workers (registry_pids st) results := by
  induction results with
  | nil => intro st; simp [child_handler, reap_workers]
  | cons r more ih =>
    intro st
    obtain ⟨child, status⟩ := r
    by_cases hpos : child > 0
    · simp only [child_handler, reap_workers, hpos, if_true]
      rw [ih]
      congr 1
      simp only [registry_pids]
      rw [body_pids, filter_pos_erase _ _ hpos]
    · simp [child_handler, reap_workers, hpos]

theorem accept_step_clients (env : Env) (m : Locals) (st : State)
    (client : sockaddr_storage) (client_socket child : Int) :
    (accept_step env m st client client_socket child).clients =
      { ss := client, pid := child } :: st.clients := by
  simp [accept_step, main_parent_path, pre_fork, sigprocmask_unblock, log_connection,
    insert_client, close_fd, count_client, sigprocmask_block]

theorem accept_step_count (env : Env) (m : Locals) (st : State)
    (client : sockaddr_storage) (client_socket child : Int) :
    (accept_step env m st client client_socket child).client_count = st.client_count + 1 := by
  simp [accept_step, main_parent_path, pre_fork, sigprocmask_unblock, log_connection,
    insert_client, close_fd, count_client, sigprocmask_block]

theorem run_pids (env : Env) (m : Locals) (evs : List Event) :
    ∀ (st : State) (live : List Int),
      (∀ c fd child, Event.accept c fd child ∈ evs → 0 < child) →
      (∀ p ∈ live, 0 < p) →
      st.clients.map client_s.pid = live →
      (run env m st evs).clients.map client_s.pid = live_workers live evs := by
  induction evs with
  | nil => intro st live _ _ h; simpa [run, live_workers] using h
  | cons e rest ih =>
    intro st live hfork hlive h
    have hrest : ∀ c fd child, Event.accept c fd child ∈ rest → 0 < child :=
      fun c fd child hm => hfork c fd child (List.mem_cons_of_mem _ hm)
    cases e with
    | accept c fd child =>
      have hpos : 0 < child := hfork c fd child (List.mem_cons_self _ _)
      have hstep : run env m st (Event.accept c fd child :: rest) =
          run env m (accept_step env m st c fd child) rest := by
        simp [run, step]
      rw [hstep]
      simp only [live_workers, hpos, if_true]
      apply ih _ _ hrest
      · intro p hp
        rcases List.mem_cons.mp hp with hp | hp
        · rw [hp]; exact hpos
        · exact hlive p hp
      · rw [accept_step_clients]; simp [h]
    | reap child status =>
      have hstep : run env m st (Event.reap child status :: rest) =
          run env m (child_handler env st [(child, status)]) rest := by
        simp [run, step]
      rw [hstep]
      simp only [live_workers]
      apply ih _ _ hrest
      · intro p hp
        exact hlive p (List.mem_of_mem_erase hp)
      · by_cases hpos : 0 < child
        · rw [handler_single env st child status hpos, body_pids, h]
        · have hnot : child ∉ live := fun hm => hpos (hlive child hm)
          rw [List.erase_of_not_mem hnot]
          simpa [child_handler, hpos] using h

theorem accept_step_registry_pids (env : Env) (m : Locals) (st : State)
    (client : sockaddr_storage) (client_socket child : Int) :
    registry_pids (accept_step env m st client client_socket child) =
      if 0 < child then child :: registry_pids st else registry_pids st := by
  simp only [registry_pids, accept_step_clients, List.map_cons, List.filter_cons]
  by_cases hpos : 0 < child
  · simp [hpos]
  · simp [hpos]

theorem run_registry_pids (env : Env) (m : Locals) (evs : List Event) :
    ∀ st : State, registry_pids (run env m st evs) = live_workers (registry_pids st) evs := by
  induction evs with
  | nil => intro st; simp [run, live_workers]
  | cons e rest ih =>
    intro st
    cases e with
    | accept c fd child =>
      have hstep : run env m st (Event.accept c fd child :: rest) =
          run env m (accept_step env m st c fd child) rest := by
        simp [run, step]
      rw [hstep, ih, accept_step_registry_pids]
      simp only [live_workers]
    | reap child status =>
      have hstep : run env m st (Event.reap child status :: rest) =
          run env m (child_handler env st [(child, status)]) rest := by
        simp [run, step]
      rw [hstep, ih, handler_registry_pids]
      simp only [live_workers, reap_workers]
      by_cases hpos : child > 0
      · simp [hpos]
      · have hnot : child ∉ registry_pids st := by
          intro hm
          simp only [registry_pids, List.mem_filter, decide_eq_true_eq] at hm
          exact hpos hm.2
        simp only [hpos, if_false]
        rw [List.erase_of_not_mem hnot]

theorem forks_succeed_mem (evs : List Event) (h : forks_succeed evs = true) :
    ∀ c fd child, Event.accept c fd child ∈ evs → 0 < child := by
  induction evs with
  | nil => intro c fd child hm; simp at hm
  | cons e rest ih =>
    intro c fd child hm
    cases e with
    | accept c2 fd2 child2 =>
      simp only [forks_succeed, Bool.and_eq_true, decide_eq_true_eq] at h
      rcases List.mem_cons.mp hm with hm | hm
      · injection hm with _ _ h3
        rw [h3]; exact h.1
      · exact ih h.2 c fd child hm
    | reap child2 status2 =>
      simp only [forks_succeed] at h
      rcases List.mem_cons.mp hm with hm | hm
      · cases hm
      · exact ih h c fd child hm

theorem body_length_matched (env : Env) (st : State) (child status : Int)
    (hm : ∃ r ∈ st.clients, r.pid = child) :
    (child_handler_body env st child status).clients.length + 1 = st.clients.length := by
  cases hf : find_client st.clients child with
  | none =>
    obtain ⟨r, hr, hp⟩ := hm
    exact absurd hp ((find_client_none_iff st.clients child).mp hf r hr)
  | some p =>
    obtain ⟨i, c⟩ := p
    obtain ⟨pre, post, hl, _, hpid, hpre⟩ := find_client_some st.clients child i c hf
    rw [body_clients_split env st child status pre post c hl hpid hpre, hl]
    simp only [List.length_append, List.length_cons]
    omega

theorem run_count (env : Env) (m : Locals) (evs : List Event) :
    ∀ (st : State), reaps_match env m st evs = true →
      st.client_count = (st.clients.length : Int) →
      (run env m st evs).client_count = ((run env m st evs).clients.length : Int) := by
  induction evs with
  | nil => intro st _ h; simpa [run] using h
  | cons e rest ih =>
    intro st hm h
    cases e with
    | accept c fd child =>
      have hstep : run env m st (Event.accept c fd child :: rest) =
          run env m (accept_step env m st c fd child) rest := by
        simp [run, step]
      rw [hstep]
      simp only [reaps_match, step] at hm
      apply ih _ hm
      rw [accept_step_count, accept_step_clients, h]
      simp
    | reap child status =>
      have hstep : run env m st (Event.reap child status :: rest) =
          run env m (child_handler env st [(child, status)]) rest := by
        simp [run, step]
      rw [hstep]
      simp only [reaps_match, step, Bool.and_eq_true, decide_eq_true_eq, List.any_eq_true] at hm
      obtain ⟨⟨hpos, hex⟩, hrest⟩ := hm
      apply ih _ hrest
      rw [handler_single env st child status hpos, body_count]
      have hlen := body_length_matched env st child status hex
      omega

/-- C8: `logger` writes the message to the diagnostic stream exactly when the
configured verbosity is at least the level of the message; a suppressed message
leaves the stream as it was and the result is 0, a written one gives the result
of the print. -/
theorem logger_gated_by_verbosity (env : Env) (stderr : List String) (level : Int)
    (msg : String) :
    ((logger env stderr level msg).1 = stderr ++ [msg] ↔ env.conf_verbosity ≥ level) ∧
    ((logger env stderr level msg).1 = stderr ↔ ¬ env.conf_verbosity ≥ level) ∧
    (¬ env.conf_verbosity ≥ level → logger env stderr level msg = (stderr, 0)) ∧
    (env.conf_verbosity ≥ level →
      logger env stderr level msg = (stderr ++ [msg], env.vfprintf msg)) := by
  by_cases hv : env.conf_verbosity ≥ level
  · simp [logger, hv]
  · simp [logger, hv]

theorem logger_gated_by_verbosity_witness :
    logger env0 [] 3 "debug message" = ([], 0) :=
  (logger_gated_by_verbosity env0 [] 3 "debug message").2.2.1 (by decide)

/-- C2: when the terminated pid has a record, `child_handler` takes out the
first record of that pid and nothing else, wherever it stands in the list (head:
`pre = []`, last: `post = []`), keeps the other records and their order, and the
registry that results does not depend on how address resolution answers. -/
theorem child_handler_removes_first_match (env env2 : Env) (st : State)
    (child status : Int) (pre post : List client_s) (r : client_s)
    (hpos : 0 < child) (hsplit : st.clients = pre ++ r :: post) (hr : r.pid = child)
    (hpre : ∀ x ∈ pre, x.pid ≠ child) :
    (child_handler env st [(child, status)]).clients = pre ++ post ∧
    (child_handler env2 st [(child, status)]).clients =
      (child_handler env st [(child, status)]).clients := by
  rw [handler_single env st child status hpos, handler_single env2 st child status hpos,
    body_clients_split env st child status pre post r hsplit hr hpre,
    body_clients_split env2 st child status pre post r hsplit hr hpre]
  exact ⟨rfl, rfl⟩

theorem child_handler_removes_first_match_witness :
    (child_handler env0 state0 [(101, 0)]).clients =
      [{ ss := 0, pid := 102 }] ++ [{ ss := 7, pid := 100 }] :=
  (child_handler_removes_first_match env0 env0 state0 101 0
    [{ ss := 0, pid := 102 }] [{ ss := 7, pid := 100 }] { ss := 8, pid := 101 }
    (by decide) (by decide) (by decide) (by decide)).1

/-- C6: when the terminated pid has no record, `child_handler` leaves the
registry as it is; for pid 1 the diagnostic stream is untouched, for any other
pid the stream is what the `LOG_ERROR` call "Unknown child finished" makes of
it. -/
theorem child_handler_unmatched_pid (env : Env) (st : State) (child status : Int)
    (hpos : 0 < child) (hno : ∀ x ∈ st.clients, x.pid ≠ child) :
    (child_handler env st [(child, status)]).clients = st.clients ∧
    (child = 1 → (child_handler env st [(child, status)]).stderr = st.stderr) ∧
    (child ≠ 1 → (child_handler env st [(child, status)]).stderr =
      (logger env st.stderr env.LOG_ERROR
        ("Unknown child finished - pid " ++ toString child ++ "\n")).1) := by
  rw [handler_single env st child status hpos]
  refine ⟨body_clients_unmatched env st child status hno, ?_, ?_⟩
  · intro h1
    have hf := (find_client_none_iff st.clients child).mpr hno
    unfold child_handler_body
    rw [hf]
    simp [h1]
  · intro h1
    have hf := (find_client_none_iff st.clients child).mpr hno
    unfold child_handler_body
    rw [hf]
    simp [h1]

theorem child_handler_unmatched_pid_witness :
    (child_handler env0 state0 [(55, 0)]).clients = state0.clients :=
  (child_handler_unmatched_pid env0 state0 55 0 (by decide) (by decide)).1

/-- Accept and reap steps from the empty registry: a pid is the pid of a worker
forked and not yet reaped exactly when it is positive and a record of the
registry has it; and when every `fork` of the sequence returned a pid, the pids
in the registry are those of the workers forked and not yet reaped (as lists, so
with the same multiplicity). -/
theorem registry_holds_live_workers (env : Env) (m : Locals) (sigmask : List Nat)
    (stderr : List String) (closed : List Int) (evs : List Event) :
    (∀ p : Int, p ∈ live_workers [] evs ↔
      (0 < p ∧ ∃ r ∈ (run env m (init_state sigmask stderr closed) evs).clients, r.pid = p)) ∧
    (forks_succeed evs = true →
      (run env m (init_state sigmask stderr closed) evs).clients.map client_s.pid =
        live_workers [] evs ∧
      ∀ p : Int,
        (∃ r ∈ (run env m (init_state sigmask stderr closed) evs).clients, r.pid = p) ↔
          p ∈ live_workers [] evs) := by
  constructor
  · intro p
    have h := run_registry_pids env m evs (init_state sigmask stderr closed)
    have h0 : registry_pids (init_state sigmask stderr closed) = [] := by
      simp [registry_pids, init_state]
    rw [h0] at h
    rw [← h]
    simp only [registry_pids, List.mem_filter, List.mem_map, decide_eq_true_eq]
    constructor
    · rintro ⟨⟨r, hr, hp⟩, hpos⟩
      exact ⟨hpos, r, hr, hp⟩
    · rintro ⟨hpos, r, hr, hp⟩
      exact ⟨⟨r, hr, hp⟩, hpos⟩
  · intro hfork
    have h := run_pids env m evs (init_state sigmask stderr closed) []
      (forks_succeed_mem evs hfork) (by simp) (by simp [init_state])
    refine ⟨h, ?_⟩
    intro p
    rw [← h]
    simp [List.mem_map]

theorem registry_holds_live_workers_witness :
    (run env0 locals0 (init_state [] [] []) events0).clients.map client_s.pid =
      live_workers [] events0 :=
  ((registry_holds_live_workers env0 locals0 [] [] [] events0).2 (by decide)).1

theorem handler_keeps_record (env : Env) (r : client_s) (hr : r.pid ≤ 0)
    (results : List (Int × Int)) :
    ∀ st : State, r ∈ st.clients → r ∈ (child_handler env st results).clients := by
  induction results with
  | nil => intro st h; simpa [child_handler] using h
  | cons res more ih =>
    intro st h
    obtain ⟨child, status⟩ := res
    by_cases hpos : child > 0
    · simp only [child_handler, hpos, if_true]
      apply ih
      cases hf : find_client st.clients child with
      | none =>
        rw [body_clients_unmatched env st child status
          ((find_client_none_iff st.clients child).mp hf)]
        exact h
      | some p =>
        obtain ⟨i, c⟩ := p
        obtain ⟨pre, post, hl, _, hpid, hpre⟩ := find_client_some st.clients child i c hf
        rw [body_clients_split env st child status pre post c hl hpid hpre]
        rw [hl] at h
        rcases List.mem_append.mp h with h1 | h1
        · exact List.mem_append_left _ h1
        · rcases List.mem_cons.mp h1 with h2 | h2
          · rw [h2, hpid] at hr
            omega
          · exact List.mem_append_right _ h2
    · simpa [child_handler, hpos] using h

theorem reaps_keep_record (env : Env) (m : Locals) (r : client_s) (hr : r.pid ≤ 0)
    (reaps : List (Int × Int)) :
    ∀ st : State, r ∈ st.clients →
      r ∈ (run env m st (reaps.map (fun x => Event.reap x.1 x.2))).clients := by
  induction reaps with
  | nil => intro st h; simpa [run] using h
  | cons x more ih =>
    intro st h
    have hstep : run env m st ((x :: more).map (fun x => Event.reap x.1 x.2)) =
        run env m (child_handler env st [(x.1, x.2)])
          (more.map (fun x => Event.reap x.1 x.2)) := by
      simp [run, step]
    rw [hstep]
    exact ih _ (handler_keeps_record env r hr [(x.1, x.2)] st h)

/-- C1 on the code when `fork` fails: for a connection from peer 7 on
descriptor 5 with `fork` returning -1, line 305 takes the parent branch; the
registry then holds the record `{7, -1}` and `client_count` is 1 while no worker
was forked, and no sequence of reap steps takes the record out again. -/
theorem failed_fork_leaves_record_without_worker :
    main_accept env0 locals0 (init_state [] [] []) 7 5 (-1) true =
      Outcome.parent (run env0 locals0 (init_state [] [] []) [Event.accept 7 5 (-1)]) ∧
    (run env0 locals0 (init_state [] [] []) [Event.accept 7 5 (-1)]).clients =
      [{ ss := 7, pid := -1 }] ∧
    (run env0 locals0 (init_state [] [] []) [Event.accept 7 5 (-1)]).client_count = 1 ∧
    live_workers [] [Event.accept 7 5 (-1)] = [] ∧
    ∀ reaps : List (Int × Int),
      ({ ss := 7, pid := -1 } : client_s) ∈
        (run env0 locals0 (init_state [] [] [])
          (Event.accept 7 5 (-1) :: reaps.map (fun x => Event.reap x.1 x.2))).clients := by
  have hc : (run env0 locals0 (init_state [] [] []) [Event.accept 7 5 (-1)]).clients =
      [{ ss := 7, pid := -1 }] := by decide
  refine ⟨rfl, hc, by decide, by decide, ?_⟩
  intro reaps
  have hstep : run env0 locals0 (init_state [] [] [])
      (Event.accept 7 5 (-1) :: reaps.map (fun x => Event.reap x.1 x.2)) =
      run env0 locals0 (run env0 locals0 (init_state [] [] []) [Event.accept 7 5 (-1)])
        (reaps.map (fun x => Event.reap x.1 x.2)) := by
    simp [run]
  rw [hstep]
  apply reaps_keep_record env0 locals0 _ (by decide)
  rw [hc]
  exact List.mem_singleton.mpr rfl

/-- C10: from the empty registry and a counter of 0, after any sequence of
parent-path accept steps and of reap steps that each meet a record of their
pid, `client_count` is the number of records; an accept step adds 1 to both, and
such a reap step takes 1 from both. -/
theorem client_count_is_registry_size (env : Env) (m : Locals) (sigmask : List Nat)
    (stderr : List String) (closed : List Int) (evs : List Event)
    (hmatch : reaps_match env m (init_state sigmask stderr closed) evs = true) :
    (run env m (init_state sigmask stderr closed) evs).client_count =
      ((run env m (init_state sigmask stderr closed) evs).clients.length : Int) ∧
    (∀ (st : State) (client : sockaddr_storage) (client_socket child : Int),
      (accept_step env m st client client_socket child).client_count = st.client_count + 1 ∧
      (accept_step env m st client client_socket child).clients.length =
        st.clients.length + 1) ∧
    (∀ (st : State) (child status : Int), 0 < child → (∃ r ∈ st.clients, r.pid = child) →
      (child_handler env st [(child, status)]).client_count = st.client_count - 1 ∧
      (child_handler env st [(child, status)]).clients.length + 1 = st.clients.length) := by
  refine ⟨run_count env m evs _ hmatch (by simp [init_state]), ?_, ?_⟩
  · intro st client client_socket child
    exact ⟨accept_step_count env m st client client_socket child, by
      rw [accept_step_clients]; simp⟩
  · intro st child status hpos hex
    rw [handler_single env st child status hpos]
    exact ⟨body_count env st child status, body_length_matched env st child status hex⟩

theorem client_count_is_registry_size_witness :
    (run env0 locals0 (init_state [] [] []) events0).client_count =
      ((run env0 locals0 (init_state [] [] []) events0).clients.length : Int) :=
  (client_count_is_registry_size env0 locals0 [] [] [] events0 (by decide)).1

/-! ## Properties of the socket setup -/

theorem set_options_fields (env : Env) (L : Setup) (ai : addrinfo) :
    (set_options env L ai).s = L.s ∧ (set_options env L ai).maxs = L.maxs ∧
    (set_options env L ai).closed = L.closed ∧ (set_options env L ai).nfds = L.nfds := by
  unfold set_options
  by_cases h1 : ai.reuseaddr_r ≠ 0 <;>
    by_cases h2 : env.have_IPV6_V6ONLY = true ∧ ai.ai_family = AF_INET6 ∧ ai.v6only_r ≠ 0 <;>
    simp [h1, h2]

theorem listen_candidate_fails (env : Env) (L : Setup) (ai : addrinfo)
    (hf : ai.succeeds = false) :
    (listen_candidate env L ai).maxs = L.maxs ∧
    (listen_candidate env L ai).s = L.s.set L.maxs ai.socket_r := by
  obtain ⟨hs, hm, _, _⟩ :=
    set_options_fields env { L with s := L.s.set L.maxs ai.socket_r } ai
  unfold listen_candidate
  by_cases h0 : ai.socket_r < 0
  · simp [h0]
  · by_cases hb : ai.bind_r ≠ 0
    · simp [h0, hb, hs, hm]
    · by_cases hl : ai.listen_r ≠ 0
      · simp [h0, hb, hl, hs, hm]
      · exfalso
        simp only [addrinfo.succeeds, Bool.and_eq_false_iff, decide_eq_false_iff_not] at hf
        push_neg at hb hl
        omega

theorem listen_candidate_succeeds (env : Env) (L : Setup) (ai : addrinfo)
    (hok : ai.succeeds = true) :
    (listen_candidate env L ai).maxs = L.maxs + 1 ∧
    (listen_candidate env L ai).s = L.s.set L.maxs ai.socket_r := by
  obtain ⟨hs, hm, _, _⟩ :=
    set_options_fields env { L with s := L.s.set L.maxs ai.socket_r } ai
  simp only [addrinfo.succeeds, Bool.and_eq_true, decide_eq_true_eq] at hok
  obtain ⟨⟨h0, hb⟩, hl⟩ := hok
  have h0' : ¬ ai.socket_r < 0 := by omega
  unfold listen_candidate
  simp only [h0', hb, hl, if_false, ne_eq, not_true_eq_false]
  by_cases hn : ai.socket_r > (set_options env { L with s := L.s.set L.maxs ai.socket_r } ai).nfds
  · simp [hn, hs, hm]
  · simp [hn, hs, hm]

theorem take_set_self (s : List Int) (n : Nat) (v : Int) :
    (s.set n v).take n = s.take n := by
  induction s generalizing n with
  | nil => simp
  | cons a rest ih =>
    cases n with
    | zero => simp
    | succ k => simp [List.set, ih]

theorem take_set_succ (s : List Int) (n : Nat) (v : Int) (h : n < s.length) :
    (s.set n v).take (n + 1) = s.take n ++ [v] := by
  induction s generalizing n with
  | nil => simp at h
  | cons a rest ih =>
    cases n with
    | zero => simp
    | succ k =>
      simp only [List.length_cons, Nat.add_lt_add_iff_right] at h
      simp [List.set, ih k h]

theorem candidate_loop_spec (env : Env) (cands : List addrinfo) :
    ∀ L : Setup, L.s.length = MAX_S → L.maxs ≤ MAX_S →
      (candidate_loop env L cands).s.length = MAX_S ∧
      (candidate_loop env L cands).maxs ≤ MAX_S ∧
      (candidate_loop env L cands).s.take (candidate_loop env L cands).maxs =
        (L.s.take L.maxs ++ (cands.filter addrinfo.succeeds).map addrinfo.socket_r).take MAX_S := by
  induction cands with
  | nil =>
    intro L hlen hmax
    refine ⟨hlen, hmax, ?_⟩
    simp only [candidate_loop, List.filter_nil, List.map_nil, List.append_nil]
    rw [List.take_take]
    congr 1
    omega
  | cons ai rest ih =>
    intro L hlen hmax
    by_cases hlt : L.maxs < MAX_S
    · simp only [candidate_loop, hlt, if_true]
      cases hok : ai.succeeds with
      | false =>
        obtain ⟨hm, hs⟩ := listen_candidate_fails env L ai hok
        have hlen1 : (listen_candidate env L ai).s.length = MAX_S := by
          rw [hs, List.length_set]; exact hlen
        have hmax1 : (listen_candidate env L ai).maxs ≤ MAX_S := by rw [hm]; exact hmax
        obtain ⟨h1, h2, h3⟩ := ih _ hlen1 hmax1
        refine ⟨h1, h2, ?_⟩
        rw [h3, hm, hs, take_set_self]
        simp [List.filter_cons, hok]
      | true =>
        obtain ⟨hm, hs⟩ := listen_candidate_succeeds env L ai hok
        have hlen1 : (listen_candidate env L ai).s.length = MAX_S := by
          rw [hs, List.length_set]; exact hlen
        have hmax1 : (listen_candidate env L ai).maxs ≤ MAX_S := by rw [hm]; omega
        obtain ⟨h1, h2, h3⟩ := ih _ hlen1 hmax1
        refine ⟨h1, h2, ?_⟩
        rw [h3, hm, hs, take_set_succ _ _ _ (by omega)]
        simp [List.filter_cons, hok]
    · have heq : L.maxs = MAX_S := by omega
      simp only [candidate_loop, hlt, if_false]
      refine ⟨hlen, hmax, ?_⟩
      have hfull : (L.s.take L.maxs).length = MAX_S := by
        rw [List.length_take]; omega
      rw [List.take_append_of_le_length (by omega), List.take_take]
      congr 1
      omega

theorem bind_loop_spec (env : Env) (addrs : List bindaddr_s) :
    ∀ L : Setup, L.s.length = MAX_S → L.maxs ≤ MAX_S → (∀ b ∈ addrs, b.gai_r = 0) →
      ∃ L2, bind_loop env L addrs = Except.ok L2 ∧ L2.s.length = MAX_S ∧ L2.maxs ≤ MAX_S ∧
        L2.s.take L2.maxs =
          (L.s.take L.maxs ++
            ((candidates addrs).filter addrinfo.succeeds).map addrinfo.socket_r).take MAX_S := by
  induction addrs with
  | nil =>
    intro L hlen hmax _
    refine ⟨L, rfl, hlen, hmax, ?_⟩
    simp only [candidates, List.map_nil, List.flatten_nil, List.filter_nil, List.append_nil]
    rw [List.take_take]
    congr 1
    omega
  | cons b rest ih =>
    intro L hlen hmax hres
    have hb : b.gai_r = 0 := hres b (List.mem_cons_self _ _)
    obtain ⟨h1, h2, h3⟩ := candidate_loop_spec env b.res L hlen hmax
    obtain ⟨L2, hL2, hlen2, hmax2, htake2⟩ :=
      ih (candidate_loop env L b.res) h1 h2 (fun x hx => hres x (List.mem_cons_of_mem _ hx))
    refine ⟨L2, ?_, hlen2, hmax2, ?_⟩
    · simp only [bind_loop, hb, ne_eq, not_true_eq_false, if_false]
      exact hL2
    · rw [htake2, h3]
      have hc : candidates (b :: rest) = b.res ++ candidates rest := by
        simp [candidates]
      rw [hc, List.filter_append, List.map_append, ← List.append_assoc]
      generalize L.s.take L.maxs ++ (b.res.filter addrinfo.succeeds).map addrinfo.socket_r = A
      generalize ((candidates rest).filter addrinfo.succeeds).map addrinfo.socket_r = B
      by_cases hA : A.length ≤ MAX_S
      · rw [List.take_of_length_le hA]
      · have hA2 : MAX_S ≤ A.length := by omega
        have hlenT : (A.take MAX_S).length = MAX_S := by
          rw [List.length_take]; omega
        rw [List.take_append_of_le_length (by omega), List.take_take,
          List.take_append_of_le_length hA2]
        simp

theorem fd_set_loop_mem (s : List Int) (n : Nat) :
    ∀ (i : Nat) (rfd0 : List Int) (fd : Int),
      fd ∈ fd_set_loop s i n rfd0 ↔
        fd ∈ rfd0 ∨ ((0 ≤ fd ∧ fd < (FD_SETSIZE : Int)) ∧
          ∃ j, i ≤ j ∧ j < i + n ∧ s.getD j 0 = fd) := by
  induction n with
  | zero =>
    intro i rfd0 fd
    simp only [fd_set_loop, Nat.add_zero]
    constructor
    · intro h; exact Or.inl h
    · rintro (h | ⟨_, j, h1, h2, _⟩)
      · exact h
      · omega
  | succ k ih =>
    intro i rfd0 fd
    simp only [fd_set_loop]
    rw [ih, FD_SET]
    by_cases hin : 0 ≤ s.getD i 0 ∧ s.getD i 0 < (FD_SETSIZE : Int)
    · rw [if_pos hin, List.mem_insert_iff]
      constructor
      · rintro ((h | h) | ⟨hr, j, h1, h2, h3⟩)
        · exact Or.inr ⟨by rw [h]; exact hin, i, le_refl _, by omega, h.symm⟩
        · exact Or.inl h
        · exact Or.inr ⟨hr, j, by omega, by omega, h3⟩
      · rintro (h | ⟨hr, j, h1, h2, h3⟩)
        · exact Or.inl (Or.inr h)
        · by_cases hj : j = i
          · subst hj; exact Or.inl (Or.inl h3.symm)
          · exact Or.inr ⟨hr, j, by omega, by omega, h3⟩
    · rw [if_neg hin]
      constructor
      · rintro (h | ⟨hr, j, h1, h2, h3⟩)
        · exact Or.inl h
        · exact Or.inr ⟨hr, j, by omega, by omega, h3⟩
      · rintro (h | ⟨hr, j, h1, h2, h3⟩)
        · exact Or.inl h
        · by_cases hj : j = i
          · subst hj
            rw [h3] at hin
            exact absurd hr hin
          · exact Or.inr ⟨hr, j, by omega, by omega, h3⟩

theorem mem_take_iff_getD (s : List Int) (n : Nat) (hn : n ≤ s.length) (fd : Int) :
    fd ∈ s.take n ↔ ∃ j, j < n ∧ s.getD j 0 = fd := by
  rw [List.mem_take_iff_getElem]
  constructor
  · rintro ⟨j, hj, hget⟩
    have hj2 : j < n := by
      have := Nat.lt_min.mp hj; omega
    have hjl : j < s.length := by omega
    exact ⟨j, hj2, by rw [List.getD_eq_getElem _ _ hjl]; exact hget⟩
  · rintro ⟨j, hj, hget⟩
    have hjl : j < s.length := by omega
    rw [List.getD_eq_getElem _ _ hjl] at hget
    exact ⟨j, Nat.lt_min.mpr ⟨hj, hjl⟩, hget⟩

theorem rfd0_mem (s : List Int) (n : Nat) (hn : n ≤ s.length) (fd : Int) :
    fd ∈ fd_set_loop s 0 n [] ↔
      (0 ≤ fd ∧ fd < (FD_SETSIZE : Int)) ∧ fd ∈ s.take n := by
  rw [fd_set_loop_mem, mem_take_iff_getD s n hn]
  constructor
  · rintro (h | ⟨hr, j, _, h2, h3⟩)
    · simp at h
    · exact ⟨hr, j, by omega, h3⟩
  · rintro ⟨hr, j, h2, h3⟩
    exact Or.inr ⟨hr, j, Nat.zero_le _, by omega, h3⟩

theorem candidate_loop_full (env : Env) (cands : List addrinfo) (L : Setup)
    (hfull : ¬ L.maxs < MAX_S) : candidate_loop env L cands = L := by
  cases cands with
  | nil => rfl
  | cons ai rest => simp only [candidate_loop, hfull, if_false]

theorem listen_candidate_maxs_le (env : Env) (L : Setup) (ai : addrinfo) :
    L.maxs ≤ (listen_candidate env L ai).maxs := by
  cases hok : ai.succeeds with
  | false => rw [(listen_candidate_fails env L ai hok).1]
  | true => rw [(listen_candidate_succeeds env L ai hok).1]; omega

theorem candidate_loop_maxs_le (env : Env) (cands : List addrinfo) :
    ∀ L : Setup, L.maxs ≤ (candidate_loop env L cands).maxs := by
  induction cands with
  | nil => intro L; simp [candidate_loop]
  | cons ai rest ih =>
    intro L
    by_cases hlt : L.maxs < MAX_S
    · simp only [candidate_loop, hlt, if_true]
      exact le_trans (listen_candidate_maxs_le env L ai) (ih _)
    · simp only [candidate_loop, hlt, if_false]
      exact le_refl _

theorem candidate_loop_append (env : Env) (a b : List addrinfo) :
    ∀ L : Setup, candidate_loop env L (a ++ b) =
      candidate_loop env (candidate_loop env L a) b := by
  induction a with
  | nil => intro L; simp [candidate_loop]
  | cons ai rest ih =>
    intro L
    by_cases hlt : L.maxs < MAX_S
    · simp only [List.cons_append, candidate_loop, hlt, if_true]
      exact ih _
    · simp only [List.cons_append, candidate_loop, hlt, if_false]
      exact (candidate_loop_full env b L hlt).symm

theorem bind_loop_flat (env : Env) (addrs : List bindaddr_s) :
    ∀ L : Setup, (∀ b ∈ addrs, b.gai_r = 0) →
      bind_loop env L addrs = Except.ok (candidate_loop env L (candidates addrs)) := by
  induction addrs with
  | nil => intro L _; simp [bind_loop, candidates, candidate_loop]
  | cons b rest ih =>
    intro L hres
    have hb : b.gai_r = 0 := hres b (List.mem_cons_self _ _)
    have hc : candidates (b :: rest) = b.res ++ candidates rest := by
      simp [candidates]
    simp only [bind_loop, hb, ne_eq, not_true_eq_false, if_false]
    rw [ih _ (fun x hx => hres x (List.mem_cons_of_mem _ hx)), hc, candidate_loop_append]

theorem candidate_loop_cap (env : Env) (tried rest : List addrinfo) (L : Setup)
    (hlen : L.s.length = MAX_S) (hmax : L.maxs ≤ MAX_S)
    (hcap : MAX_S ≤ L.maxs + (tried.filter addrinfo.succeeds).length) :
    candidate_loop env L (tried ++ rest) = candidate_loop env L tried := by
  rw [candidate_loop_append]
  apply candidate_loop_full
  obtain ⟨h1, h2, h3⟩ := candidate_loop_spec env tried L hlen hmax
  have hl := congrArg List.length h3
  simp only [List.length_take, List.length_append, List.length_map] at hl
  omega

theorem setup_bind_loop (env : Env) (s0 : List Int) (stderr : List String)
    (addrs : List bindaddr_s) (hs0 : s0.length = MAX_S) (hres : ∀ b ∈ addrs, b.gai_r = 0) :
    ∃ L, bind_loop env (setup_init s0 stderr) addrs = Except.ok L ∧ L.maxs ≤ L.s.length ∧
      L.s.take L.maxs =
        (((candidates addrs).filter addrinfo.succeeds).map addrinfo.socket_r).take MAX_S ∧
      (L.maxs = 0 ↔ ∀ ai ∈ candidates addrs, ai.succeeds = false) := by
  obtain ⟨L, hL, hlen, hmax, htake⟩ :=
    bind_loop_spec env addrs (setup_init s0 stderr) hs0 (Nat.zero_le _) hres
  simp only [setup_init, List.take_zero, List.nil_append] at htake
  refine ⟨L, hL, by omega, htake, ?_⟩
  have hl := congrArg List.length htake
  simp only [List.length_take, List.length_map] at hl
  have hmin : min L.maxs L.s.length = L.maxs := by omega
  rw [hmin] at hl
  constructor
  · intro h0
    rw [h0] at hl
    have hz : ((candidates addrs).filter addrinfo.succeeds).length = 0 := by
      have : 0 < MAX_S := by decide
      omega
    have hnil := List.length_eq_zero.mp hz
    intro ai hai
    cases hs : ai.succeeds with
    | false => rfl
    | true =>
      have : ai ∈ (candidates addrs).filter addrinfo.succeeds :=
        List.mem_filter.mpr ⟨hai, hs⟩
      rw [hnil] at this
      simp at this
  · intro hall
    have hnil : (candidates addrs).filter addrinfo.succeeds = [] := by
      rw [List.filter_eq_nil_iff]
      intro a ha
      rw [hall a ha]
      simp
    rw [hnil] at hl
    simpa using hl

/-- C4: when every bind address resolves, the setup ends in `exit` exactly when
no socket is listening at the end of the bind loop (`maxs = 0`, which is the case
exactly when no candidate has `socket`, `bind` and `listen` all succeed), and
the status is then `EXIT_FAILURE`; as soon as one candidate succeeds the setup
reaches the accept loop.  A candidate whose `bind` or `listen` fails leaves
`maxs` and `s[0..maxs)` as they were, has its descriptor closed and the failure
passed to `logger` at `LOG_ERROR`, and the loop goes on with the candidates
after it. -/
theorem setup_exits_iff_no_listener (env : Env) (s0 : List Int) (stderr : List String)
    (new_empty_bindaddr bind_addresses : List bindaddr_s) (hs0 : s0.length = MAX_S)
    (hres : ∀ b ∈ effective_bind_addresses new_empty_bindaddr bind_addresses, b.gai_r = 0) :
    (∃ L, bind_loop env (setup_init s0 stderr)
        (effective_bind_addresses new_empty_bindaddr bind_addresses) = Except.ok L ∧
      ((∃ status err, main_setup env s0 stderr new_empty_bindaddr bind_addresses =
          Startup.exit status err) ↔ L.maxs = 0) ∧
      (L.maxs = 0 ↔
        ∀ ai ∈ candidates (effective_bind_addresses new_empty_bindaddr bind_addresses),
          ai.succeeds = false)) ∧
    (∀ status err, main_setup env s0 stderr new_empty_bindaddr bind_addresses =
        Startup.exit status err → status = EXIT_FAILURE ∧ status ≠ EXIT_SUCCESS) ∧
    ((∃ ai ∈ candidates (effective_bind_addresses new_empty_bindaddr bind_addresses),
        ai.succeeds = true) →
      ∃ L rfd0, main_setup env s0 stderr new_empty_bindaddr bind_addresses =
        Startup.ready L rfd0 ∧ 0 < L.maxs) ∧
    (∀ (L : Setup) (ai : addrinfo) (rest : List addrinfo),
      L.maxs < MAX_S → 0 ≤ ai.socket_r → (ai.bind_r ≠ 0 ∨ ai.listen_r ≠ 0) →
      (listen_candidate env L ai).maxs = L.maxs ∧
      (listen_candidate env L ai).s.take L.maxs = L.s.take L.maxs ∧
      (listen_candidate env L ai).closed = L.closed ++ [ai.socket_r] ∧
      (listen_candidate env L ai).stderr =
        (logger env (set_options env { L with s := L.s.set L.maxs ai.socket_r } ai).stderr
          env.LOG_ERROR
          (if ai.bind_r ≠ 0 then "Cannot bind: " ++ env.strerror ai.bind_errno ++ "\n"
           else "Cannot listen: " ++ env.strerror ai.listen_errno ++ "\n")).1 ∧
      candidate_loop env L (ai :: rest) =
        candidate_loop env (listen_candidate env L ai) rest) := by
  obtain ⟨L, hL, _, _, hzero⟩ := setup_bind_loop env s0 stderr
    (effective_bind_addresses new_empty_bindaddr bind_addresses) hs0 hres
  have hmain : main_setup env s0 stderr new_empty_bindaddr bind_addresses =
      if L.maxs = 0 then
        Startup.exit EXIT_FAILURE (logger env L.stderr env.LOG_FATAL "No socket to listen!\n").1
      else Startup.ready L (fd_set_loop L.s 0 L.maxs []) := by
    simp only [main_setup, hL]
  refine ⟨⟨L, hL, ?_, hzero⟩, ?_, ?_, ?_⟩
  · rw [hmain]
    by_cases h0 : L.maxs = 0
    · simp [h0]
    · simp [h0]
  · intro status err h
    rw [hmain] at h
    by_cases h0 : L.maxs = 0
    · simp only [h0, if_true] at h
      injection h with h1 _
      rw [← h1]
      exact ⟨rfl, by decide⟩
    · simp [h0] at h
  · rintro ⟨ai, hai, hok⟩
    have h0 : ¬ L.maxs = 0 := by
      intro h
      have := hzero.mp h ai hai
      rw [hok] at this
      cases this
    refine ⟨L, fd_set_loop L.s 0 L.maxs [], ?_, by omega⟩
    rw [hmain]
    simp [h0]
  · intro L ai rest hlt hsock hfail
    have hf : ai.succeeds = false := by
      simp only [addrinfo.succeeds, Bool.and_eq_false_iff, decide_eq_false_iff_not]
      rcases hfail with h | h
      · exact Or.inl (Or.inr h)
      · exact Or.inr h
    obtain ⟨hm, hs⟩ := listen_candidate_fails env L ai hf
    obtain ⟨_, _, hc, _⟩ :=
      set_options_fields env { L with s := L.s.set L.maxs ai.socket_r } ai
    have h0 : ¬ ai.socket_r < 0 := by omega
    refine ⟨hm, by rw [hs, take_set_self], ?_, ?_, by simp [candidate_loop, hlt]⟩
    · unfold listen_candidate
      by_cases hb : ai.bind_r ≠ 0
      · simp [h0, hb, hc]
      · have hl : ai.listen_r ≠ 0 := by
          rcases hfail with h | h
          · exact absurd h hb
          · exact h
        simp [h0, hb, hl, hc]
    · unfold listen_candidate
      by_cases hb : ai.bind_r ≠ 0
      · simp [h0, hb]
      · have hl : ai.listen_r ≠ 0 := by
          rcases hfail with h | h
          · exact absurd h hb
          · exact h
        simp [h0, hb, hl]

theorem setup_exits_iff_no_listener_witness :
    ∃ L rfd0, main_setup env0 s_zero [] []
      [resolved [unbindable_candidate 3, good_candidate 3]] = Startup.ready L rfd0 ∧
      0 < L.maxs :=
  (setup_exits_iff_no_listener env0 s_zero [] []
    [resolved [unbindable_candidate 3, good_candidate 3]] (by decide) (by decide)).2.2.1
    ⟨good_candidate 3, by decide, by decide⟩

/-- C5, as the code has it: when every bind address resolves, a candidate for
which `socket`, `bind` and `listen` succeed and which has fewer than `MAX_S`
such candidates before it is in `s[0..maxs)`, and in `rfd0` when its descriptor
is below `FD_SETSIZE`.  `s[0..maxs)` holds the descriptors of the first `MAX_S`
succeeding candidates, in order, and among the descriptors below `FD_SETSIZE`
the members of `rfd0` are those of `s[0..maxs)`.  The candidates that come once
`MAX_S` sockets are listening are not tried: the setup ends exactly as it does
when the candidates stop there (same array, counters, diagnostic stream and
closed descriptors). -/
theorem first_listeners_are_watched (env : Env) (s0 : List Int) (stderr : List String)
    (new_empty_bindaddr bind_addresses : List bindaddr_s) (pre post : List addrinfo)
    (ai : addrinfo) (hs0 : s0.length = MAX_S)
    (hres : ∀ b ∈ effective_bind_addresses new_empty_bindaddr bind_addresses, b.gai_r = 0)
    (hsplit : candidates (effective_bind_addresses new_empty_bindaddr bind_addresses) =
      pre ++ ai :: post)
    (hok : ai.succeeds = true) (hcap : (pre.filter addrinfo.succeeds).length < MAX_S) :
    (∃ L rfd0, main_setup env s0 stderr new_empty_bindaddr bind_addresses =
        Startup.ready L rfd0 ∧
      L.s.take L.maxs =
        (((candidates (effective_bind_addresses new_empty_bindaddr bind_addresses)).filter
          addrinfo.succeeds).map addrinfo.socket_r).take MAX_S ∧
      (∀ fd, fd < (FD_SETSIZE : Int) → (fd ∈ rfd0 ↔ fd ∈ L.s.take L.maxs)) ∧
      ai.socket_r ∈ L.s.take L.maxs ∧
      (ai.socket_r < (FD_SETSIZE : Int) → ai.socket_r ∈ rfd0)) ∧
    (∀ tried rest : List addrinfo,
      candidates (effective_bind_addresses new_empty_bindaddr bind_addresses) =
        tried ++ rest →
      MAX_S ≤ (tried.filter addrinfo.succeeds).length →
      main_setup env s0 stderr new_empty_bindaddr bind_addresses =
        main_setup env s0 stderr [] [resolved tried]) := by
  obtain ⟨L, hL, hle, htake, hzero⟩ := setup_bind_loop env s0 stderr
    (effective_bind_addresses new_empty_bindaddr bind_addresses) hs0 hres
  have hmem : ai.socket_r ∈ L.s.take L.maxs := by
    rw [htake, hsplit, List.filter_append, List.filter_cons, hok]
    simp only [if_true, List.map_append, List.map_cons]
    rw [List.take_append_eq_append_take]
    apply List.mem_append_right
    have hpos : 0 < MAX_S - ((pre.filter addrinfo.succeeds).map addrinfo.socket_r).length := by
      rw [List.length_map]; omega
    obtain ⟨k, hk⟩ := Nat.exists_eq_succ_of_ne_zero (Nat.pos_iff_ne_zero.mp hpos)
    rw [hk, List.take_succ_cons]
    exact List.mem_cons_self _ _
  have hnonneg : ∀ fd, fd ∈ L.s.take L.maxs → 0 ≤ fd := by
    intro fd hfd
    rw [htake] at hfd
    have hfd2 := List.mem_of_mem_take hfd
    obtain ⟨c, hc, hcfd⟩ := List.mem_map.mp hfd2
    have hcs := (List.mem_filter.mp hc).2
    simp only [addrinfo.succeeds, Bool.and_eq_true, decide_eq_true_eq] at hcs
    rw [← hcfd]
    exact hcs.1.1
  have h0 : ¬ L.maxs = 0 := by
    intro h
    have := hzero.mp h ai (by rw [hsplit]; simp)
    rw [hok] at this
    cases this
  refine ⟨⟨L, fd_set_loop L.s 0 L.maxs [], ?_, htake, ?_, hmem, ?_⟩, ?_⟩
  · simp only [main_setup, hL, h0, if_false]
  · intro fd hlt
    rw [rfd0_mem L.s L.maxs hle fd]
    constructor
    · intro h; exact h.2
    · intro h; exact ⟨⟨hnonneg fd h, hlt⟩, h⟩
  · intro hlt
    exact (rfd0_mem L.s L.maxs hle _).mpr ⟨⟨hnonneg _ hmem, hlt⟩, hmem⟩
  · intro tried rest hcands hfull
    have hres2 : ∀ b ∈ effective_bind_addresses [] [resolved tried], b.gai_r = 0 := by
      intro b hb
      simp only [effective_bind_addresses, List.cons_ne_self, if_false, List.mem_singleton,
        reduceCtorEq] at hb
      rw [hb]; rfl
    have hc2 : candidates (effective_bind_addresses [] [resolved tried]) = tried := by
      simp [effective_bind_addresses, candidates, resolved]
    have hb1 := bind_loop_flat env
      (effective_bind_addresses new_empty_bindaddr bind_addresses) (setup_init s0 stderr) hres
    have hb2 := bind_loop_flat env (effective_bind_addresses [] [resolved tried])
      (setup_init s0 stderr) hres2
    rw [hcands, candidate_loop_cap env tried rest (setup_init s0 stderr) hs0
      (Nat.zero_le _) (by simp only [setup_init]; omega)] at hb1
    rw [hc2] at hb2
    simp only [main_setup, hb1, hb2]

theorem first_listeners_are_watched_witness :
    ∃ L rfd0, main_setup env0 s_zero [] []
        [resolved [unbindable_candidate 3, good_candidate 3], resolved [good_candidate 4]] =
        Startup.ready L rfd0 ∧
      (good_candidate 4).socket_r ∈ L.s.take L.maxs ∧ (good_candidate 4).socket_r ∈ rfd0 := by
  obtain ⟨⟨L, rfd0, h1, _, _, h4, h5⟩, _⟩ := first_listeners_are_watched env0 s_zero [] []
    [resolved [unbindable_candidate 3, good_candidate 3], resolved [good_candidate 4]]
    [unbindable_candidate 3, good_candidate 3] [] (good_candidate 4)
    (by decide) (by decide) (by decide) (by decide) (by decide)
  exact ⟨L, rfd0, h1, h4, h5 (by decide)⟩

/-- C5 as stated fails: with one bind address resolving to eleven candidates
that all succeed, the eleventh (descriptor 13) is neither in `s[0..maxs)` nor in
`rfd0`. -/
theorem eleventh_listener_not_watched :
    (∀ b ∈ effective_bind_addresses [] [resolved eleven_candidates], b.gai_r = 0) ∧
    good_candidate 13 ∈
      candidates (effective_bind_addresses [] [resolved eleven_candidates]) ∧
    (good_candidate 13).succeeds = true ∧
    ∃ L rfd0, main_setup env0 s_zero [] [] [resolved eleven_candidates] =
        Startup.ready L rfd0 ∧
      (good_candidate 13).socket_r ∉ L.s.take L.maxs ∧
      (good_candidate 13).socket_r ∉ rfd0 := by
  refine ⟨by decide, by decide, by decide, _, _, rfl, ?_, ?_⟩
  · decide
  · decide

/-! ## Properties of the child branch -/

theorem close_loop_eq (s : List Int) (n : Nat) :
    ∀ j, close_loop s j n = (List.range' j n).map (fun k => Action.close (s.getD k 0)) := by
  induction n with
  | zero => intro j; simp [close_loop]
  | succ k ih => intro j; simp [close_loop, ih, List.range'_succ]

/-- C7: when `fork` returns 0 the pass through the accept section ends in the
child, whose calls are, in order: `sigprocmask(SIG_UNBLOCK, childset)` with
`SIGCHLD` in the set, `close(s[j])` for `j = 0, ..., maxs - 1`, and
`client_service(client_socket)`; if that call returns, `exit(EXIT_SUCCESS)`
(status 0) follows and is the last call.  The outcome is never a parent state,
so the child does not go on with the accept loop. -/
theorem child_path_calls (env : Env) (m : Locals) (garbage : List Nat) (st : State)
    (client : sockaddr_storage) (client_socket : Int) (returns : Bool) :
    main_accept env { m with childset := childset_init garbage } st client client_socket 0
        returns =
      Outcome.child
        ([Action.sigprocmask_unblock (SIGCHLD :: garbage)] ++
          (List.range m.maxs).map (fun j => Action.close (m.s.getD j 0)) ++
          [Action.client_service client_socket] ++
          (if returns = true then [Action.exit 0] else [])) ∧
    (∀ st2, main_accept env { m with childset := childset_init garbage } st client
        client_socket 0 returns ≠ Outcome.parent st2) := by
  have h : main_accept env { m with childset := childset_init garbage } st client
      client_socket 0 returns =
      Outcome.child
        ([Action.sigprocmask_unblock (SIGCHLD :: garbage)] ++
          (List.range m.maxs).map (fun j => Action.close (m.s.getD j 0)) ++
          [Action.client_service client_socket] ++
          (if returns = true then [Action.exit 0] else [])) := by
    simp only [main_accept, main_child_path, close_loop_eq, childset_init, sigaddset,
      EXIT_SUCCESS, List.range_eq_range', ne_eq, not_true_eq_false, if_false]
  refine ⟨h, ?_⟩
  intro st2 h2
  rw [h] at h2
  cases h2

theorem child_path_calls_witness :
    main_accept env0 { locals0 with childset := childset_init [] } state0 7 5 0 true =
      Outcome.child
        [Action.sigprocmask_unblock [17], Action.close 3, Action.close 4,
         Action.client_service 5, Action.exit 0] :=
  (child_path_calls env0 locals0 [] state0 7 5 true).1

/-! ## Properties of the fd map -/

theorem fdmap_index_inj (d e : Int) (hd0 : 0 ≤ d) (hd : d < (FD_MAP_SIZE : Int))
    (he0 : 0 ≤ e) (he : e < (FD_MAP_SIZE : Int)) (h : fdmap_index d = fdmap_index e) :
    d = e := by
  have h1 := congrArg Fin.val h
  simp only [fdmap_index] at h1
  rw [Int.emod_eq_of_lt hd0 hd, Int.emod_eq_of_lt he0 he] at h1
  omega

theorem fdmap_apply_unset (d : Int) (hd0 : 0 ≤ d) (hd : d < (FD_MAP_SIZE : Int))
    (ops : List FdOp) :
    ∀ m : fdmap_t, fdmap_get m d = none →
      (∀ op ∈ ops, 0 ≤ op.fd ∧ op.fd < (FD_MAP_SIZE : Int)) →
      (∀ op ∈ ops, op.sets d = false) →
      fdmap_get (fdmap_apply m ops) d = none := by
  induction ops with
  | nil => intro m hm _ _; simpa [fdmap_apply] using hm
  | cons op rest ih =>
    intro m hm hrange hnot
    have hstep : fdmap_apply m (op :: rest) = fdmap_apply (fdmap_step m op) rest := by
      simp [fdmap_apply]
    rw [hstep]
    apply ih
    · have hr := hrange op (List.mem_cons_self _ _)
      have hs := hnot op (List.mem_cons_self _ _)
      cases op with
      | set fd c =>
        simp only [FdOp.fd] at hr
        simp only [FdOp.sets, decide_eq_false_iff_not] at hs
        have hidx : fdmap_index d ≠ fdmap_index fd := fun e =>
          hs (fdmap_index_inj d fd hd0 hd hr.1 hr.2 e).symm
        simp only [fdmap_step, fdmap_get, fdmap_set, Function.update_noteq hidx]
        exact hm
      | del fd =>
        simp only [fdmap_step, fdmap_get, fdmap_del]
        by_cases hidx : fdmap_index d = fdmap_index fd
        · rw [hidx, Function.update_same]
        · rw [Function.update_noteq hidx]; exact hm
    · intro o ho; exact hrange o (List.mem_cons_of_mem _ ho)
    · intro o ho; exact hnot o (List.mem_cons_of_mem _ ho)

/-- C9: the fd map laws.  `fdmap_get(d)` after `fdmap_set(d, c)` is `c`; after
`fdmap_del(d)` it is `NULL`; `fdmap_set(d, c)` done twice leaves the map that one
`fdmap_set(d, c)` leaves; and on a map built from `fdmap_init` by operations none
of which sets `d`, all descriptors being within the table (`0 ≤ fd <
FD_MAP_SIZE`), `fdmap_get(d)` is `NULL`. -/
theorem fdmap_laws (m : fdmap_t) (d : Int) (c : connection_ptr) :
    fdmap_get (fdmap_set m d c) d = c ∧
    fdmap_get (fdmap_del m d) d = none ∧
    fdmap_set (fdmap_set m d c) d c = fdmap_set m d c ∧
    fdmap_get fdmap_init d = none ∧
    (∀ ops : List FdOp, 0 ≤ d → d < (FD_MAP_SIZE : Int) →
      (∀ op ∈ ops, 0 ≤ op.fd ∧ op.fd < (FD_MAP_SIZE : Int)) →
      (∀ op ∈ ops, op.sets d = false) →
      fdmap_get (fdmap_apply fdmap_init ops) d = none) := by
  refine ⟨?_, ?_, ?_, ?_, ?_⟩
  · simp [fdmap_get, fdmap_set]
  · simp [fdmap_get, fdmap_del]
  · simp [fdmap_set]
  · simp [fdmap_get, fdmap_init]
  · intro ops hd0 hd hrange hnot
    exact fdmap_apply_unset d hd0 hd ops fdmap_init (by simp [fdmap_get, fdmap_init])
      hrange hnot

theorem fdmap_laws_witness :
    fdmap_get (fdmap_apply fdmap_init [FdOp.set 4 (some 1), FdOp.set 5 (some 2), FdOp.del 5])
      7 = none :=
  (fdmap_laws fdmap_init 7 none).2.2.2.2
    [FdOp.set 4 (some 1), FdOp.set 5 (some 2), FdOp.del 5]
    (by decide) (by decide) (by decide) (by decide)

/-! ## Properties of the accept section under signal delivery -/

theorem stmt_step_inv (env : Env) (m : Locals) (hset : SIGCHLD ∈ m.childset) (sup : Sup)
    (client : sockaddr_storage) (client_socket child : Int) (h : sup_inv sup) :
    sup_inv (stmt_step env m sup client client_socket child) := by
  obtain ⟨st, pc, workers⟩ := sup
  cases pc with
  | waiting => simpa [stmt_step, sup_inv] using h
  | accepted c fd =>
    simp only [sup_inv] at h
    simp only [stmt_step, sup_inv, sigprocmask_block, registry_pids]
    exact ⟨List.mem_append_left _ hset, h⟩
  | masked c fd =>
    simp only [sup_inv] at h
    simp only [stmt_step, sup_inv, count_client, registry_pids]
    exact h
  | counted c fd =>
    simp only [sup_inv] at h
    by_cases hc : child ≠ 0
    · simp only [stmt_step]
      rw [if_pos hc]
      simp only [sup_inv]
      refine ⟨h.1, ?_⟩
      by_cases hpos : 0 < child
      · simp [hpos, h.2]
      · simp [hpos, h.2]
    · simp only [stmt_step]
      rw [if_neg hc]
      simp only [sup_inv]
  | forked c fd ch =>
    simp only [sup_inv] at h
    simp only [stmt_step, sup_inv, close_fd, registry_pids]
    exact h
  | closed c ch =>
    simp only [sup_inv] at h
    simp only [stmt_step, sup_inv, insert_client, registry_pids]
    refine ⟨h.1, ?_⟩
    rw [← h.2]
    by_cases hpos : 0 < ch
    · simp [hpos, registry_pids]
    · simp [hpos, registry_pids]
  | inserted c =>
    simp only [sup_inv] at h
    simp only [stmt_step, sup_inv, log_connection, registry_pids]
    exact h
  | logged =>
    simp only [sup_inv] at h
    simp only [stmt_step, sup_inv, sigprocmask_unblock, registry_pids]
    exact h.2
  | gone => simpa [stmt_step, sup_inv] using h

theorem tick_inv (env : Env) (m : Locals) (hset : SIGCHLD ∈ m.childset) (sup : Sup)
    (t : Tick) (h : sup_inv sup) : sup_inv (tick env m sup t) := by
  cases t with
  | stmt client client_socket child =>
    exact stmt_step_inv env m hset sup client client_socket child h
  | sigchld results =>
    by_cases hb : SIGCHLD ∈ sup.st.sigmask ∨ sup.pc = Pc.gone
    · simp only [tick, hb, if_true]; exact h
    · simp only [tick, hb, if_false]
      push_neg at hb
      obtain ⟨hmask, hgone⟩ := hb
      obtain ⟨st, pc, workers⟩ := sup
      cases pc with
      | waiting =>
        simp only [sup_inv] at h ⊢
        rw [handler_registry_pids, h]
      | accepted c fd =>
        simp only [sup_inv] at h ⊢
        rw [handler_registry_pids, h]
      | masked c fd => exact absurd h.1 hmask
      | counted c fd => exact absurd h.1 hmask
      | forked c fd ch => exact absurd h.1 hmask
      | closed c ch => exact absurd h.1 hmask
      | inserted c => exact absurd h.1 hmask
      | logged => exact absurd h.1 hmask
      | gone => exact absurd rfl hgone

theorem ticks_inv (env : Env) (m : Locals) (hset : SIGCHLD ∈ m.childset) (ts : List Tick) :
    ∀ sup : Sup, sup_inv sup → sup_inv (ticks env m sup ts) := by
  induction ts with
  | nil => intro sup h; simpa [ticks] using h
  | cons t rest ih =>
    intro sup h
    have hstep : ticks env m sup (t :: rest) = ticks env m (tick env m sup t) rest := by
      simp [ticks]
    rw [hstep]
    exact ih _ (tick_inv env m hset sup t h)

theorem sup_inv_section (sup : Sup) (h : sup_inv sup) (hs : sup.pc.in_section = true) :
    SIGCHLD ∈ sup.st.sigmask := by
  obtain ⟨st, pc, workers⟩ := sup
  cases pc <;> simp only [Pc.in_section] at hs <;> first | exact h.1 | cases hs

theorem sup_inv_registered (sup : Sup) (h : sup_inv sup) (hm : SIGCHLD ∉ sup.st.sigmask) :
    ∀ w ∈ sup.workers, ∃ r ∈ sup.st.clients, r.pid = w := by
  have hreg : ∀ w ∈ registry_pids sup.st, ∃ r ∈ sup.st.clients, r.pid = w := by
    intro w hw
    simp only [registry_pids, List.mem_filter, List.mem_map] at hw
    obtain ⟨⟨r, hr, hp⟩, _⟩ := hw
    exact ⟨r, hr, hp⟩
  obtain ⟨st, pc, workers⟩ := sup
  cases pc with
  | waiting => simp only [sup_inv] at h; intro w hw; exact hreg w (by rw [h]; exact hw)
  | accepted c fd => simp only [sup_inv] at h; intro w hw; exact hreg w (by rw [h]; exact hw)
  | masked c fd => exact absurd h.1 hm
  | counted c fd => exact absurd h.1 hm
  | forked c fd ch => exact absurd h.1 hm
  | closed c ch => exact absurd h.1 hm
  | inserted c => exact absurd h.1 hm
  | logged => exact absurd h.1 hm
  | gone => simp only [sup_inv] at h; intro w hw; simp only [h] at hw; cases hw

theorem ticks_append (env : Env) (m : Locals) (sup : Sup) (ts : List Tick) (t : Tick) :
    ticks env m sup (ts ++ [t]) = tick env m (ticks env m sup ts) t := by
  simp [ticks, List.foldl_append]

theorem section_run (env : Env) (m : Locals) (hset : SIGCHLD ∈ m.childset) (st : State)
    (workers : List Int) (client : sockaddr_storage) (client_socket child : Int)
    (results : List (Int × Int)) (hchild : child ≠ 0) :
    ticks env m { st := st, pc := Pc.waiting, workers := workers }
        (section_ticks client client_socket child results) =
      { st := accept_step env m st client client_socket child, pc := Pc.waiting,
        workers := if 0 < child then child :: workers else workers } := by
  have hmem : SIGCHLD ∈ m.childset ++ st.sigmask := List.mem_append_left _ hset
  simp [ticks, section_ticks, tick, stmt_step, sigprocmask_block, count_client, close_fd,
    insert_client, log_connection, hmem, hchild, accept_step, main_parent_path, pre_fork]

theorem accept_step_unblocked (env : Env) (m : Locals) (hset : SIGCHLD ∈ m.childset)
    (st : State) (client : sockaddr_storage) (client_socket child : Int) :
    SIGCHLD ∉ (accept_step env m st client client_socket child).sigmask := by
  simp [accept_step, main_parent_path, pre_fork, sigprocmask_unblock, log_connection,
    insert_client, close_fd, count_client, sigprocmask_block, hset]

theorem stmt_step_guarded (env : Env) (m : Locals) (sup : Sup) (h : sup_inv sup)
    (client : sockaddr_storage) (client_socket child : Int)
    (hchange :
      (stmt_step env m sup client client_socket child).st.client_count ≠ sup.st.client_count ∨
      (stmt_step env m sup client client_socket child).workers ≠ sup.workers ∨
      (stmt_step env m sup client client_socket child).st.clients ≠ sup.st.clients) :
    SIGCHLD ∈ sup.st.sigmask ∧
      SIGCHLD ∈ (stmt_step env m sup client client_socket child).st.sigmask := by
  obtain ⟨st, pc, workers⟩ := sup
  cases pc with
  | waiting => simp [stmt_step] at hchange
  | accepted c fd => simp [stmt_step, sigprocmask_block] at hchange
  | masked c fd =>
    simp only [sup_inv] at h
    exact ⟨h.1, by simpa [stmt_step, count_client] using h.1⟩
  | counted c fd =>
    simp only [sup_inv] at h
    refine ⟨h.1, ?_⟩
    by_cases hc : child ≠ 0
    · simp only [stmt_step]; rw [if_pos hc]; exact h.1
    · simp only [stmt_step]; rw [if_neg hc]; exact h.1
  | forked c fd ch => simp [stmt_step, close_fd] at hchange
  | closed c ch =>
    simp only [sup_inv] at h
    exact ⟨h.1, by simpa [stmt_step, insert_client] using h.1⟩
  | inserted c => simp [stmt_step, log_connection] at hchange
  | logged => simp [stmt_step, sigprocmask_unblock] at hchange
  | gone => simp [stmt_step] at hchange

/-- C3: at every point of every run of the accept loop, with `SIGCHLD` arriving
at any moment.  (1) From the `sigprocmask(SIG_BLOCK, ...)` of line 303 until the
`sigprocmask(SIG_UNBLOCK, ...)` of line 328 `SIGCHLD` is in the signal mask.
(2) While it is in the mask a delivery changes nothing: the handler does not
run.  (3) Whenever it is not in the mask, so whenever the handler can run, every
child forked and not yet reaped has its record in the registry.  (4) A statement
that changes `client_count`, the children of the process or the registry runs
with `SIGCHLD` in the mask and leaves it there: the signal is deferred before
the counter is incremented and the worker forked, and still deferred when the
record has been inserted.  (5) One pass of the parent through the section, with
`SIGCHLD` arriving after every statement from line 303 on, ends back in the
loop with the record `{client, child}` in front of the registry, the counter one
higher, the new child among the children if `fork` succeeded, and only then
`SIGCHLD` out of the mask; the arrivals inside the section have changed
nothing. -/
theorem sigchld_deferred_until_registered (env : Env) (m : Locals) (garbage sigmask : List Nat)
    (stderr : List String) (closed : List Int) (ts : List Tick) :
    ((supervisor_after env m garbage sigmask stderr closed ts).pc.in_section = true →
      SIGCHLD ∈ (supervisor_after env m garbage sigmask stderr closed ts).st.sigmask) ∧
    (SIGCHLD ∈ (supervisor_after env m garbage sigmask stderr closed ts).st.sigmask →
      ∀ results, supervisor_after env m garbage sigmask stderr closed
          (ts ++ [Tick.sigchld results]) =
        supervisor_after env m garbage sigmask stderr closed ts) ∧
    (SIGCHLD ∉ (supervisor_after env m garbage sigmask stderr closed ts).st.sigmask →
      ∀ w ∈ (supervisor_after env m garbage sigmask stderr closed ts).workers,
        ∃ r ∈ (supervisor_after env m garbage sigmask stderr closed ts).st.clients,
          r.pid = w) ∧
    (∀ (client : sockaddr_storage) (client_socket child : Int),
      ((supervisor_after env m garbage sigmask stderr closed
            (ts ++ [Tick.stmt client client_socket child])).st.client_count ≠
          (supervisor_after env m garbage sigmask stderr closed ts).st.client_count ∨
        (supervisor_after env m garbage sigmask stderr closed
            (ts ++ [Tick.stmt client client_socket child])).workers ≠
          (supervisor_after env m garbage sigmask stderr closed ts).workers ∨
        (supervisor_after env m garbage sigmask stderr closed
            (ts ++ [Tick.stmt client client_socket child])).st.clients ≠
          (supervisor_after env m garbage sigmask stderr closed ts).st.clients) →
      SIGCHLD ∈ (supervisor_after env m garbage sigmask stderr closed ts).st.sigmask ∧
      SIGCHLD ∈ (supervisor_after env m garbage sigmask stderr closed
        (ts ++ [Tick.stmt client client_socket child])).st.sigmask) ∧
    (∀ (st : State) (workers : List Int) (client : sockaddr_storage)
        (client_socket child : Int) (results : List (Int × Int)), child ≠ 0 →
      (ticks env { m with childset := childset_init garbage }
          { st := st, pc := Pc.waiting, workers := workers }
          (section_ticks client client_socket child results)).pc = Pc.waiting ∧
      (ticks env { m with childset := childset_init garbage }
          { st := st, pc := Pc.waiting, workers := workers }
          (section_ticks client client_socket child results)).st.clients =
        { ss := client, pid := child } :: st.clients ∧
      (ticks env { m with childset := childset_init garbage }
          { st := st, pc := Pc.waiting, workers := workers }
          (section_ticks client client_socket child results)).st.client_count =
        st.client_count + 1 ∧
      (ticks env { m with childset := childset_init garbage }
          { st := st, pc := Pc.waiting, workers := workers }
          (section_ticks client client_socket child results)).workers =
        (if 0 < child then child :: workers else workers) ∧
      SIGCHLD ∉ (ticks env { m with childset := childset_init garbage }
          { st := st, pc := Pc.waiting, workers := workers }
          (section_ticks client client_socket child results)).st.sigmask) := by
  have hset : SIGCHLD ∈ ({ m with childset := childset_init garbage } : Locals).childset := by
    simp [childset_init, sigaddset]
  have hinv : sup_inv (supervisor_after env m garbage sigmask stderr closed ts) :=
    ticks_inv env _ hset ts _ (by simp [sup_inv, sup_init, registry_pids, init_state])
  refine ⟨sup_inv_section _ hinv, ?_, sup_inv_registered _ hinv, ?_, ?_⟩
  · intro hmask results
    simp only [supervisor_after, ticks, List.foldl_append, List.foldl_cons, List.foldl_nil]
    simp only [supervisor_after, ticks] at hmask
    simp [tick, hmask]
  · intro client client_socket child hchange
    have hstep : supervisor_after env m garbage sigmask stderr closed
        (ts ++ [Tick.stmt client client_socket child]) =
        stmt_step env { m with childset := childset_init garbage }
          (supervisor_after env m garbage sigmask stderr closed ts)
          client client_socket child := by
      simp only [supervisor_after, ticks_append, tick]
    rw [hstep] at hchange ⊢
    exact stmt_step_guarded env _ _ hinv client client_socket child hchange
  · intro st workers client client_socket child results hchild
    rw [section_run env _ hset st workers client client_socket child results hchild]
    exact ⟨rfl, accept_step_clients env _ st client client_socket child,
      accept_step_count env _ st client client_socket child, rfl,
      accept_step_unblocked env _ hset st client client_socket child⟩

theorem sigchld_deferred_until_registered_witness :
    (supervisor_after env0 locals0 [] [] [] [] ticks0).workers = [100] ∧
    (supervisor_after env0 locals0 [] [] [] [] ticks0).st.clients = [{ ss := 7, pid := 100 }] ∧
    ∀ w ∈ (supervisor_after env0 locals0 [] [] [] [] ticks0).workers,
      ∃ r ∈ (supervisor_after env0 locals0 [] [] [] [] ticks0).st.clients, r.pid = w :=
  ⟨by decide, by decide,
    (sigchld_deferred_until_registered env0 locals0 [] [] [] [] ticks0).2.2.1 (by decide)⟩

end Rtp2httpd
